import Mathlib

/-
Shallow embedding of the Oracle view dependency crawler
(`src/python/oracrawl.py`) and proofs about its behaviour.

Modelling conventions:
* Python strings are Lean `String`s; `str.upper()` is `String.toUpper`,
  `str.split(".")` is `String.splitOn "."`, `str.strip()` is `String.trim`.
* Python sets/dicts that the program mutates are modelled as lists with an
  explicit insertion discipline, so multiplicity and order of insertion are
  visible to the theorems.
* A Python function that can raise an uncaught exception is modelled with
  `Option`: `none` is the raised exception.
* The two external collaborators are parameters of the model: the schema
  catalog (`Catalog`, standing for the `all_objects` / `all_views` data the
  SQL queries read) and the sqlglot parser (`Parser`, standing for
  `sqlglot.parse_one` plus the walk over `Table` / `Func` nodes; `none` is a
  parse exception).
* The unbounded Python recursion of `_crawl` and `render_tree._walk` is
  modelled with an explicit fuel argument counting recursion depth; the value
  `outOfFuel` (resp. `none` for the renderer) means the recursion did not
  complete within that depth.
-/

namespace Oracrawl

/-! ## Python string helpers

Core `String.splitOn`, `String.toUpper`, `String.trim` and
`String.intercalate` are implemented with well-founded recursion on byte
positions, which the kernel cannot evaluate; the char-list equivalents below
are used instead so that every definition evaluates under `decide` / `rfl`.
-/

/-- Python `str.upper()` (ASCII model, which covers every name the crawler
handles). -/
def pyUpper (s : String) : String :=
  String.mk (s.data.map Char.toUpper)

/-- Python `str.split(sep)` for a one-character separator, on characters:
the result has one (possibly empty) piece per separator gap. -/
def splitOnCharAux (sep : Char) : List Char → List (List Char)
  | [] => [[]]
  | c :: cs =>
    if c = sep then [] :: splitOnCharAux sep cs
    else
      match splitOnCharAux sep cs with
      | [] => [[c]]
      | w :: ws => (c :: w) :: ws

/-- Python `str.split(sep)` for a one-character separator. -/
def pySplitOn (s : String) (sep : Char) : List String :=
  (splitOnCharAux sep s.data).map (fun t => String.mk t)

/-- Python `str.strip()`: drop leading and trailing whitespace. -/
def pyStrip (s : String) : String :=
  String.mk (((s.data.dropWhile Char.isWhitespace).reverse.dropWhile
    Char.isWhitespace).reverse)

/-- Python `sep.join(pieces)`. -/
def joinStrings (sep : String) : List String → String
  | [] => ""
  | [x] => x
  | x :: xs => x ++ sep ++ joinStrings sep xs

/-- Python `str.split()` with no separator on a list of characters: split on
runs of whitespace, discarding empty tokens. -/
def pyWords : List Char → List (List Char)
  | [] => []
  | c :: cs =>
    if c.isWhitespace then pyWords cs
    else
      match cs, pyWords cs with
      | [], _ => [[c]]
      | d :: _, ws =>
        if d.isWhitespace then [c] :: ws
        else
          match ws with
          | [] => [[c]]
          | w :: rest => (c :: w) :: rest

/-- Python `str.split()` with no separator. -/
def pySplit (s : String) : List String :=
  (pyWords s.data).map (fun t => String.mk t)

/-! ## Name Normalizer (`strip_alias`, `fully_qualify`) -/

/-- Source `strip_alias(name)`, which is `name.split()[0]`.  The `[0]`
indexing raises `IndexError` when the split list is empty, which is modelled
by `none`. -/
def strip_alias (name : String) : Option String :=
  (pySplit name).head?

/-- Source `fully_qualify(name, default_schema)`:
`f"{default_schema}.{name}" if "." not in name else name`. -/
def fully_qualify (name default_schema : String) : String :=
  if name.data.contains '.' then name else default_schema ++ "." ++ name

/-! ## `clean_sql` -/

/-- Scan for the first `*/` and return the remainder after it (the
non-greedy body of the `/\*.*?\*/` regex). -/
def findClose : List Char → Option (List Char)
  | '*' :: '/' :: rest => some rest
  | _ :: rest => findClose rest
  | [] => none

/-- Remove `/* ... */` comments left to right (the `re.sub` with `DOTALL`);
an unterminated `/*` is kept literally.  The fuel is an upper bound on the
number of characters consumed, so `stripBlockFuel (l.length + 1) l` fully
processes `l`. -/
def stripBlockFuel : Nat → List Char → List Char
  | 0, l => l
  | n + 1, l =>
    match l with
    | '/' :: '*' :: rest =>
      match findClose rest with
      | some rest2 => stripBlockFuel n rest2
      | none => '/' :: stripBlockFuel n ('*' :: rest)
    | c :: rest => c :: stripBlockFuel n rest
    | [] => []

/-- Remove a `-- ...` comment from a single line (the `re.sub` of `--.*?$`
with `MULTILINE`). -/
def dropLineComment : List Char → List Char
  | '-' :: '-' :: _ => []
  | c :: rest => c :: dropLineComment rest
  | [] => []

/-- Source `clean_sql(sql)`: strip block comments, strip `--` line comments,
then `strip()` the result. -/
def clean_sql (sql : String) : String :=
  let noBlock : String := String.mk (stripBlockFuel (sql.data.length + 1) sql.data)
  let noLine := joinStrings "\n"
    ((pySplitOn noBlock '\n').map (fun l => String.mk (dropLineComment l.data)))
  pyStrip noLine

/-! ## Function classification -/

/-- Modelled from the spec: the static Oracle built-in-function name registry
(the `ORACLE_BUILTINS` set is elided as `{...}` in the source); per the spec
it contains the platform built-ins, e.g. `UPPER`. -/
def ORACLE_BUILTINS : List String :=
  ["UPPER", "LOWER", "SUBSTR", "INSTR", "NVL", "NVL2", "DECODE", "TO_CHAR",
   "TO_DATE", "TO_NUMBER", "COUNT", "SUM", "AVG", "MAX", "MIN", "ABS",
   "ROUND", "TRUNC", "COALESCE", "CONCAT", "LENGTH", "SYSDATE", "TRIM"]

/-- Modelled from the spec: the static SQL keyword set (the `SQL_KEYWORDS`
set is elided as `{...}` in the source); it contains the recognized SQL
keywords. -/
def SQL_KEYWORDS : List String :=
  ["SELECT", "FROM", "WHERE", "AND", "OR", "NOT", "NULL", "IN", "IS", "AS",
   "ON", "JOIN", "LEFT", "RIGHT", "INNER", "OUTER", "GROUP", "BY", "ORDER",
   "HAVING", "UNION", "ALL", "DISTINCT", "CASE", "WHEN", "THEN", "ELSE",
   "END", "EXISTS", "BETWEEN", "LIKE"]

/-- ASCII model of Python `str.isidentifier()`: nonempty, first character a
letter or underscore, remaining characters alphanumeric or underscore. -/
def isPyIdentifier (s : String) : Bool :=
  match s.data with
  | [] => false
  | c :: cs => (c.isAlpha || c = '_') && cs.all (fun d => d.isAlphanum || d = '_')

/-- Source `classify_function(name)`: `None` (here `none`) for
non-identifiers, SQL keywords and the parser's pseudo-function markers,
otherwise `"BUILTIN"` for registry members and `"UDF"` for the rest. -/
def classify_function (name : String) : Option String :=
  let nm := pyUpper name
  if ¬ (isPyIdentifier nm = true) ∨ nm ∈ SQL_KEYWORDS ∨ nm ∈ ["ANONYMOUS", "BLOCK"] then
    none
  else if nm ∈ ORACLE_BUILTINS then some "BUILTIN" else some "UDF"

/-! ## Reference Extractor (`extract_objects_from_sql`) -/

/-- A node produced by walking the sqlglot syntax tree: a `Table` node
(carrying `node.sql(dialect="oracle")`), a `Func` node (carrying
`node.sql_name()`), or any other node. -/
inductive SqlNode
  | table (sqlText : String)
  | func (sqlName : String)
  | other
deriving DecidableEq, Repr

/-- The external sqlglot collaborator: maps the cleaned SQL text to the walk
of its parse tree, or `none` when `sqlglot.parse_one` raises. -/
def Parser : Type := String → Option (List SqlNode)

/-- Python `dict` assignment `d[k] = v`: replace the value in place if the
key exists, otherwise append the binding at the end. -/
def dictInsert (d : List (String × String)) (k v : String) : List (String × String) :=
  match d with
  | [] => [(k, v)]
  | (k2, v2) :: rest => if k2 = k then (k2, v) :: rest else (k2, v2) :: dictInsert rest k v

/-- Python `dict.update(new)`. -/
def dictUpdate (d new : List (String × String)) : List (String × String) :=
  new.foldl (fun acc kv => dictInsert acc kv.1 kv.2) d

/-- Python string `<=` on characters lists: code-point lexicographic
comparison (`True` when the first list is a prefix of or sorts before the
second). -/
def pyStrLeAux : List Char → List Char → Bool
  | [], _ => true
  | _ :: _, [] => false
  | c :: cs, d :: ds2 =>
    if c.toNat < d.toNat then true
    else if d.toNat < c.toNat then false
    else pyStrLeAux cs ds2

/-- Python string `<=`: code-point lexicographic order, the comparison
`sorted` uses. -/
def pyStrLe (a b : String) : Bool :=
  pyStrLeAux a.data b.data

/-- Python `sorted(set(...))` on the collected table names: deduplicate
(keeping one copy) and sort ascending by `pyStrLe`. -/
def pySortedSet (l : List String) : List String :=
  List.insertionSort (fun a b => pyStrLe a b = true) l.dedup

/-- The loop over `parsed.walk()` in `extract_objects_from_sql`: `tables` is
the encounter-ordered list of alias-stripped table texts (a set in the
source; deduplication happens in `pySortedSet`), `functions` the dict of
UDF classifications.  `none` models the `IndexError` that `strip_alias`
raises on an empty table text, which is not caught by the source. -/
def walkNodes : List SqlNode → List String → List (String × String) →
    Option (List String × List (String × String))
  | [], ts, fs => some (ts, fs)
  | SqlNode.table txt :: rest, ts, fs =>
    match strip_alias txt with
    | none => none
    | some nm => walkNodes rest (ts ++ [nm]) fs
  | SqlNode.func fn :: rest, ts, fs =>
    let fname := pyUpper fn
    if classify_function fname = some "UDF" then
      walkNodes rest ts (dictInsert fs fname "UDF")
    else walkNodes rest ts fs
  | SqlNode.other :: rest, ts, fs => walkNodes rest ts fs

/-- Source `extract_objects_from_sql(sql)`: clean the text, parse it (on a
parse exception return `([], {})`), then walk the tree collecting sorted
unique table names and the UDF map. -/
def extract_objects_from_sql (parse : Parser) (sql : String) :
    Option (List String × List (String × String)) :=
  match parse (clean_sql sql) with
  | none => some ([], [])
  | some nodes =>
    match walkNodes nodes [] [] with
    | none => none
    | some (ts, fs) => some (pySortedSet ts, fs)

/-! ## Catalog Adapter -/

/-- First-match association lookup, the model of a SQL point query. -/
def lookup2 {α : Type} (l : List ((String × String) × α)) (k : String × String) : Option α :=
  match l with
  | [] => none
  | (k2, v) :: rest => if k2 = k then some v else lookup2 rest k

/-- The external schema catalog: `all_objects` maps an (owner, object_name)
pair to its `object_type` string; `all_views` maps a view key to its `text`
rows. -/
structure Catalog where
  all_objects : List ((String × String) × String)
  all_views : List ((String × String) × List String)
deriving DecidableEq, Repr

/-- The `SELECT object_type FROM all_objects WHERE ...` query of
`get_object_type_and_text`: both bind parameters are upper-cased. -/
def lookupType (cat : Catalog) (owner object_name : String) : Option String :=
  lookup2 cat.all_objects (pyUpper owner, pyUpper object_name)

/-- The `SELECT text FROM all_views WHERE ...` query (all rows). -/
def lookupRows (cat : Catalog) (owner object_name : String) : List String :=
  (lookup2 cat.all_views (pyUpper owner, pyUpper object_name)).getD []

/-- The view definition text assembled by `get_object_type_and_text`:
`clean_sql("\n".join(rows))`. -/
def viewText (cat : Catalog) (owner object_name : String) : String :=
  clean_sql (joinStrings "\n" (lookupRows cat owner object_name))

/-! ## Crawler state -/

/-- The module-level mutable crawl state of the source: `SEEN_OBJECTS`,
`found_views`, `found_tables`, `found_functions`, `view_ddl_map`,
`dependency_graph`, plus `queries`, the trace of `get_object_type_and_text`
invocations (recording the `owner.object_name` argument of each call), which
makes the "how often is the Catalog Adapter queried" observable. -/
structure CrawlState where
  seen : List String
  found_views : List String
  found_tables : List String
  found_functions : List (String × String)
  view_ddl_map : List (String × String)
  dependency_graph : List (String × List String)
  queries : List String
deriving DecidableEq, Repr

/-- The fresh state of a crawl invocation. -/
def initState : CrawlState :=
  { seen := [], found_views := [], found_tables := [], found_functions := [],
    view_ddl_map := [], dependency_graph := [], queries := [] }

/-- Python `dependency_graph.get(node, [])` (also the read a `defaultdict(list)`
access performs before appending). -/
def graphLookup (g : List (String × List String)) (k : String) : List String :=
  match g with
  | [] => []
  | (k2, v) :: rest => if k2 = k then v else graphLookup rest k

/-- Python `dependency_graph[k].append(v)` on a `defaultdict(list)`. -/
def graphAppend (g : List (String × List String)) (k v : String) :
    List (String × List String) :=
  match g with
  | [] => [(k, [v])]
  | (k2, vs) :: rest =>
    if k2 = k then (k2, vs ++ [v]) :: rest else (k2, vs) :: graphAppend rest k v

/-- Result of `get_object_type_and_text` as consumed by `_crawl`: the object
is a view with its definition text, or anything else (uniformly reported as
`"TABLE"` by the source). -/
inductive ObjInfo
  | table
  | view (ddl : String)
deriving DecidableEq, Repr

/-- Source `get_object_type_and_text(conn, owner, object_name)`: query
`all_objects` (recording the adapter invocation in the trace); `none` when
the object is missing; for a `VIEW` fetch and clean the definition rows and
record them in `view_ddl_map` under the raw `owner.object_name` key. -/
def get_object_type_and_text (cat : Catalog) (owner object_name : String)
    (s : CrawlState) : Option ObjInfo × CrawlState :=
  let s := { s with queries := s.queries ++ [owner ++ "." ++ object_name] }
  match lookupType cat owner object_name with
  | none => (none, s)
  | some t =>
    if t = "VIEW" then
      let ddl := viewText cat owner object_name
      (some (ObjInfo.view ddl),
        { s with view_ddl_map := s.view_ddl_map ++ [(owner ++ "." ++ object_name, ddl)] })
    else (some ObjInfo.table, s)

/-- Outcome of a (sub)crawl: normal return, `sys.exit(3)` on a missing
object, an uncaught Python exception (`strip_alias` IndexError, or the
`TypeError` of `_crawl(conn, *fq.split("."), ...)` when `fq` does not split
into exactly two parts), or recursion that did not complete within the
fuel. -/
inductive CrawlRes
  | ok (s : CrawlState)
  | notFound (fq : String) (s : CrawlState)
  | pyError (s : CrawlState)
  | outOfFuel
deriving DecidableEq, Repr

/-- The `for t in tables:` loop body of `_crawl`, with the recursive call
abstracted as `step`: qualify the name, append the edge to the dependency
graph, and recurse unless the qualified name equals the current object
case-insensitively. -/
def crawlKids (step : String → String → CrawlState → CrawlRes)
    (fq_name default_schema : String) : List String → CrawlState → CrawlRes
  | [], s => CrawlRes.ok s
  | t :: ts, s =>
    let fq := fully_qualify t default_schema
    let s1 := { s with dependency_graph := graphAppend s.dependency_graph fq_name fq }
    if pyUpper fq = pyUpper fq_name then
      crawlKids step fq_name default_schema ts s1
    else
      match pySplitOn fq '.' with
      | [o2, n2] =>
        match step o2 n2 s1 with
        | CrawlRes.ok s2 => crawlKids step fq_name default_schema ts s2
        | r => r
      | _ => CrawlRes.pyError s1

/-- Source `_crawl(conn, owner, object_name, default_schema)`, with `fuel`
bounding the recursion depth. -/
def crawlFuel (cat : Catalog) (parse : Parser) :
    Nat → String → String → String → CrawlState → CrawlRes
  | 0, _, _, _, _ => CrawlRes.outOfFuel
  | fuel + 1, owner, object_name, default_schema, s =>
    let fq_name := owner ++ "." ++ object_name
    if fq_name ∈ s.seen then CrawlRes.ok s
    else
      let s1 := { s with seen := s.seen ++ [fq_name] }
      match get_object_type_and_text cat owner object_name s1 with
      | (none, s2) => CrawlRes.notFound fq_name s2
      | (some ObjInfo.table, s2) =>
        CrawlRes.ok { s2 with found_tables := s2.found_tables ++ [fq_name] }
      | (some (ObjInfo.view ddl), s2) =>
        let s3 := { s2 with found_views := s2.found_views ++ [fq_name] }
        match extract_objects_from_sql parse ddl with
        | none => CrawlRes.pyError s3
        | some (tables, functions) =>
          match crawlKids (fun o2 n2 s' => crawlFuel cat parse fuel o2 n2 default_schema s')
              fq_name default_schema tables s3 with
          | CrawlRes.ok s4 =>
            CrawlRes.ok { s4 with found_functions := dictUpdate s4.found_functions functions }
          | r => r

/-- Source `crawl_object(conn, fq_object)`: unpack `fq_object.split(".")`
(the unpacking raises `ValueError`, modelled `none`, unless there are
exactly two parts) and start the crawl with upper-cased owner, name and
default schema. -/
def crawl_object (cat : Catalog) (parse : Parser) (fuel : Nat) (fq_object : String) :
    Option CrawlRes :=
  match pySplitOn fq_object '.' with
  | [owner, object_name] =>
    some (crawlFuel cat parse fuel (pyUpper owner) (pyUpper object_name)
      (pyUpper owner) initState)
  | _ => none

/-! ## Projections of a crawl outcome -/

/-- State carried by a completed-or-aborted outcome (`none` for fuel
exhaustion). -/
def resState : CrawlRes → Option CrawlState
  | CrawlRes.ok s => some s
  | CrawlRes.notFound _ s => some s
  | CrawlRes.pyError s => some s
  | CrawlRes.outOfFuel => none

/-- Whether the crawl returned normally. -/
def isOk : CrawlRes → Bool
  | CrawlRes.ok _ => true
  | _ => false

/-- Dependency graph of an outcome (empty for fuel exhaustion). -/
def resGraph : CrawlRes → List (String × List String)
  | CrawlRes.ok s => s.dependency_graph
  | CrawlRes.notFound _ s => s.dependency_graph
  | CrawlRes.pyError s => s.dependency_graph
  | CrawlRes.outOfFuel => []

/-- Catalog-adapter invocation trace of an outcome. -/
def resQueries : CrawlRes → List String
  | CrawlRes.ok s => s.queries
  | CrawlRes.notFound _ s => s.queries
  | CrawlRes.pyError s => s.queries
  | CrawlRes.outOfFuel => []

/-- Projection: `SEEN_OBJECTS` of an outcome. -/
def resSeen : CrawlRes → List String
  | CrawlRes.ok s => s.seen
  | CrawlRes.notFound _ s => s.seen
  | CrawlRes.pyError s => s.seen
  | CrawlRes.outOfFuel => []

/-- Projection: `found_views` of an outcome. -/
def resViews : CrawlRes → List String
  | CrawlRes.ok s => s.found_views
  | CrawlRes.notFound _ s => s.found_views
  | CrawlRes.pyError s => s.found_views
  | CrawlRes.outOfFuel => []

/-! ## Tree Renderer (`render_tree`) -/

/-- The `for i, child in enumerate(children):` loop of `render_tree._walk`,
with the recursive walk abstracted as `walk`; the last child is rendered
with the corner glyph. -/
def renderKidsAux (walk : String → String → Bool → Option (List String))
    (pre : String) : List String → Option (List String)
  | [] => some []
  | [c] => walk c pre true
  | c :: c2 :: cs =>
    match walk c pre false with
    | none => none
    | some ls =>
      match renderKidsAux walk pre (c2 :: cs) with
      | none => none
      | some ls2 => some (ls ++ ls2)

/-- Source `render_tree._walk(node, prefix, is_last)` with explicit
recursion fuel: emit the node's line, then walk the children read from the
dependency graph.  `none` means the walk did not complete within the given
recursion depth. -/
def renderWalk (g : List (String × List String)) :
    Nat → String → String → Bool → Option (List String)
  | 0, _, _, _ => none
  | fuel + 1, node, pre, last =>
    let line := pre ++ (if last then "└── " else "├── ") ++ node
    let children := graphLookup g node
    let newPre := pre ++ (if last then "    " else "│   ")
    match renderKidsAux (fun c p b => renderWalk g fuel c p b) newPre children with
    | none => none
    | some ls => some (line :: ls)

/-- Source `render_tree(fq_view)`: `_walk(fq_view)` with empty initial
prefix and `is_last=True`, joined by newlines. -/
def render_tree (g : List (String × List String)) (fuel : Nat) (fq_view : String) :
    Option String :=
  (renderWalk g fuel fq_view "" true).map (joinStrings "\n")

/-! ## Artifact writing and the `__main__` driver -/

/-- Source `sanitize_filename(fq_name)`. -/
def sanitize_filename (fq_name : String) : String :=
  ((fq_name.replace "." "__").replace "$" "_").replace "/" "_"

/-- Outcome of one driver invocation: process exit with the list of artifact
files written (in write order), or a computation that exceeded its recursion
budget. -/
inductive MainOutcome
  | exited (code : Nat) (written : List String)
  | exhausted
deriving DecidableEq, Repr

/-- The `__main__` driver of the source, abstracted over whether the
connection attempt succeeds: exit 2 on connection failure before any crawl;
unpack the root name (an unpacking failure is an uncaught `ValueError`,
exit 1); run the crawl; `sys.exit(3)` aborts before any artifact is written;
an uncaught exception exits 1; on success write the per-view DDL files, the
summary and the tree, and exit 0. -/
def mainModel (cat : Catalog) (parse : Parser) (connect_ok : Bool)
    (fq_object : String) (crawlBudget renderBudget : Nat) : MainOutcome :=
  if connect_ok = false then MainOutcome.exited 2 []
  else
    match pySplitOn fq_object '.' with
    | [owner, object_name] =>
      match crawlFuel cat parse crawlBudget (pyUpper owner) (pyUpper object_name)
          (pyUpper owner) initState with
      | CrawlRes.outOfFuel => MainOutcome.exhausted
      | CrawlRes.notFound _ _ => MainOutcome.exited 3 []
      | CrawlRes.pyError _ => MainOutcome.exited 1 []
      | CrawlRes.ok s =>
        match render_tree s.dependency_graph renderBudget fq_object with
        | none => MainOutcome.exhausted
        | some _ =>
          MainOutcome.exited 0
            ((s.view_ddl_map.map (fun p => sanitize_filename p.1 ++ ".sql")) ++
              ["summary.txt", "tree.txt"])
    | _ => MainOutcome.exited 1 []

/-- Projection: `found_functions` of an outcome. -/
def resFunctions : CrawlRes → List (String × String)
  | CrawlRes.ok s => s.found_functions
  | CrawlRes.notFound _ s => s.found_functions
  | CrawlRes.pyError s => s.found_functions
  | CrawlRes.outOfFuel => []

/-! ## Concrete scenarios used by the counterexamples and witnesses

Each scenario is a small catalog plus a parser function standing for the
sqlglot collaborator on exactly the definition texts of that catalog.
-/

/-- A parser that fails on every input (every definition text raises a
parse exception). -/
def parseNone : Parser := fun _ => none

/-- An empty schema catalog. -/
def catEmpty : Catalog := { all_objects := [], all_views := [] }

/-- Scenario: the view `S.A` whose definition references itself (table
reference `A`). -/
def catSelf : Catalog :=
  { all_objects := [(("S", "A"), "VIEW")],
    all_views := [(("S", "A"), ["SELECT * FROM A"])] }

/-- Parser for `catSelf`. -/
def parseSelf : Parser := fun s =>
  if s = "SELECT * FROM A" then some [SqlNode.table "A"] else none

/-- The crawl result state for `catSelf`: one view, a self-loop edge. -/
def stSelf : CrawlState :=
  { seen := ["S.A"], found_views := ["S.A"], found_tables := [],
    found_functions := [], view_ddl_map := [("S.A", "SELECT * FROM A")],
    dependency_graph := [("S.A", ["S.A"])], queries := ["S.A"] }

/-- Scenario: `S.A` references `S.b` (lower-case name) and `S.B` references
`S.a` (lower-case name); both views resolve to the same two catalog objects
under upper-casing. -/
def catCase : Catalog :=
  { all_objects := [(("S", "A"), "VIEW"), (("S", "B"), "VIEW")],
    all_views := [(("S", "A"), ["SELECT * FROM S.b"]),
                  (("S", "B"), ["SELECT * FROM S.a"])] }

/-- Parser for `catCase`. -/
def parseCase : Parser := fun s =>
  if s = "SELECT * FROM S.b" then some [SqlNode.table "S.b"]
  else if s = "SELECT * FROM S.a" then some [SqlNode.table "S.a"]
  else none

/-- Scenario: view `S.X` over tables `T_B` and `T_A`, referenced in that
order in the definition text. -/
def catOrder : Catalog :=
  { all_objects := [(("S", "X"), "VIEW"), (("S", "T_A"), "TABLE"),
                    (("S", "T_B"), "TABLE")],
    all_views := [(("S", "X"), ["SELECT * FROM T_B, T_A"])] }

/-- Parser for `catOrder`: the walk meets `T_B` before `T_A`, their order of
appearance in the definition. -/
def parseOrder : Parser := fun s =>
  if s = "SELECT * FROM T_B, T_A" then
    some [SqlNode.table "T_B", SqlNode.table "T_A"]
  else none

/-- Scenario: mutually recursive views `SALES.V_A` and `SALES.V_B`. -/
def catMutual : Catalog :=
  { all_objects := [(("SALES", "V_A"), "VIEW"), (("SALES", "V_B"), "VIEW")],
    all_views := [(("SALES", "V_A"), ["SELECT 1 FROM SALES.V_B"]),
                  (("SALES", "V_B"), ["SELECT 2 FROM SALES.V_A"])] }

/-- Parser for `catMutual`. -/
def parseMutual : Parser := fun s =>
  if s = "SELECT 1 FROM SALES.V_B" then some [SqlNode.table "SALES.V_B"]
  else if s = "SELECT 2 FROM SALES.V_A" then some [SqlNode.table "SALES.V_A"]
  else none

/-- Scenario: a single sequence object (a kind outside TABLE/VIEW). -/
def catSeq : Catalog :=
  { all_objects := [(("S", "SEQ1"), "SEQUENCE")], all_views := [] }

/-- Scenario: view `S.V1` whose definition text parses on nothing
(`parseNone`). -/
def catBad : Catalog :=
  { all_objects := [(("S", "V1"), "VIEW")],
    all_views := [(("S", "V1"), ["NOT SQL %%%"])] }

/-- Scenario: view `S.V2` calling the built-in `UPPER` and the user-defined
function `CALC_TAX` over table `T1`. -/
def catFun : Catalog :=
  { all_objects := [(("S", "V2"), "VIEW"), (("S", "T1"), "TABLE")],
    all_views := [(("S", "V2"), ["SELECT UPPER(X), CALC_TAX(X) FROM T1"])] }

/-- Parser for `catFun`. -/
def parseFun : Parser := fun s =>
  if s = "SELECT UPPER(X), CALC_TAX(X) FROM T1" then
    some [SqlNode.func "UPPER", SqlNode.func "CALC_TAX", SqlNode.table "T1"]
  else none

/-- The state after the bookkeeping of a fresh view visit: `SEEN_OBJECTS`
insertion, adapter query, `view_ddl_map` record and `found_views`
insertion. -/
def viewState (cat : Catalog) (o n : String) (s : CrawlState) : CrawlState :=
  { s with seen := s.seen ++ [o ++ "." ++ n],
           queries := s.queries ++ [o ++ "." ++ n],
           view_ddl_map := s.view_ddl_map ++ [(o ++ "." ++ n, viewText cat o n)],
           found_views := s.found_views ++ [o ++ "." ++ n] }

/-- The state after appending one dependency edge in the child loop. -/
def gpush (s : CrawlState) (fq_name t ds : String) : CrawlState :=
  { s with dependency_graph := graphAppend s.dependency_graph fq_name (fully_qualify t ds) }

/-- State `s'` extends `s`: the visited list of `s'` is that of `s` plus newly
visited objects. -/
def Extends (s s' : CrawlState) : Prop := ∃ d, s'.seen = s.seen ++ d

/-- The invariant every reachable crawl state satisfies: the visited list is
duplicate-free, the adapter was queried exactly for the visited objects (in
visiting order), the view and table lists are duplicate-free sublists of the
visited list, and every recorded function entry is a `UDF` classification. -/
structure Inv (s : CrawlState) : Prop where
  seen_nodup : s.seen.Nodup
  queries_eq : s.queries = s.seen
  views_nodup : s.found_views.Nodup
  views_sub : ∀ v ∈ s.found_views, v ∈ s.seen
  tables_nodup : s.found_tables.Nodup
  tables_sub : ∀ v ∈ s.found_tables, v ∈ s.seen
  funs_udf : ∀ p ∈ s.found_functions,
    classify_function p.1 = some "UDF" ∧ p.2 = "UDF"

/-- The crawl result state for `catOrder`: one view over two table leaves,
with the adjacency list in sorted order. -/
def stOrder : CrawlState :=
  { seen := ["S.X", "S.T_A", "S.T_B"], found_views := ["S.X"],
    found_tables := ["S.T_A", "S.T_B"], found_functions := [],
    view_ddl_map := [("S.X", "SELECT * FROM T_B, T_A")],
    dependency_graph := [("S.X", ["S.T_A", "S.T_B"])],
    queries := ["S.X", "S.T_A", "S.T_B"] }

/-! ## Helper lemmas: graph and dict operations -/

theorem graphLookup_append_self (g : List (String × List String)) (k v : String) :
    graphLookup (graphAppend g k v) k = graphLookup g k ++ [v] := by
  induction g with
  | nil => simp [graphAppend, graphLookup]
  | cons p rest ih =>
    obtain ⟨k2, vs⟩ := p
    by_cases h : k2 = k
    · subst h; simp [graphAppend, graphLookup]
    · simp [graphAppend, graphLookup, h, ih]

theorem graphLookup_append_ne (g : List (String × List String)) (k v k' : String)
    (h : k' ≠ k) :
    graphLookup (graphAppend g k v) k' = graphLookup g k' := by
  induction g with
  | nil =>
    simp only [graphAppend, graphLookup]
    rw [if_neg fun h2 => h h2.symm]
  | cons p rest ih =>
    obtain ⟨k2, vs⟩ := p
    by_cases h2 : k2 = k
    · subst h2
      simp only [graphAppend, if_pos rfl, graphLookup]
      by_cases h3 : k2 = k'
      · exact absurd h3.symm h
      · rw [if_neg h3, if_neg h3]
    · simp only [graphAppend, if_neg h2, graphLookup]
      by_cases h3 : k2 = k'
      · rw [if_pos h3, if_pos h3]
      · rw [if_neg h3, if_neg h3, ih]

theorem dictInsert_pres (P : String × String → Prop) (d : List (String × String))
    (k v : String) (hP : ∀ p ∈ d, P p) (hkv : P (k, v)) :
    ∀ p ∈ dictInsert d k v, P p := by
  induction d with
  | nil => simpa [dictInsert] using hkv
  | cons q rest ih =>
    obtain ⟨k2, v2⟩ := q
    by_cases h : k2 = k
    · subst h
      intro p hp
      rcases (by simpa [dictInsert] using hp) with h1 | h1
      · exact h1 ▸ hkv
      · exact hP p (List.mem_cons_of_mem _ h1)
    · intro p hp
      rcases (by simpa [dictInsert, h] using hp) with h1 | h1
      · exact h1 ▸ hP (k2, v2) (List.mem_cons_self _ _)
      · exact ih (fun q hq => hP q (List.mem_cons_of_mem _ hq)) p h1

theorem dictUpdate_pres (P : String × String → Prop) (d new : List (String × String))
    (hP : ∀ p ∈ d, P p) (hnew : ∀ p ∈ new, P p) :
    ∀ p ∈ dictUpdate d new, P p := by
  induction new generalizing d with
  | nil => simpa [dictUpdate] using hP
  | cons q rest ih =>
    obtain ⟨k, v⟩ := q
    have h1 : ∀ p ∈ dictInsert d k v, P p :=
      dictInsert_pres P d k v hP (hnew (k, v) (List.mem_cons_self _ _))
    have h2 : ∀ p ∈ rest, P p := fun p hp => hnew p (List.mem_cons_of_mem _ hp)
    simpa [dictUpdate] using ih (dictInsert d k v) h1 h2

theorem dictUpdate_nil (d : List (String × String)) : dictUpdate d [] = d := rfl

theorem dictInsert_mem_self (d : List (String × String)) (k : String) :
    (k, "UDF") ∈ dictInsert d k "UDF" := by
  induction d with
  | nil => simp [dictInsert]
  | cons q rest ih =>
    obtain ⟨k2, v2⟩ := q
    by_cases h : k2 = k
    · subst h; simp [dictInsert]
    · simp only [dictInsert, if_neg h]
      exact List.mem_cons_of_mem _ ih

theorem dictInsert_mem_mono (d : List (String × String)) (k k2 : String)
    (h : (k, "UDF") ∈ d) : (k, "UDF") ∈ dictInsert d k2 "UDF" := by
  induction d with
  | nil => simp at h
  | cons q rest ih =>
    obtain ⟨k3, v3⟩ := q
    rcases List.mem_cons.mp h with h3 | h3
    · cases h3
      by_cases h2 : k = k2
      · simp only [dictInsert, if_pos h2]
        exact List.mem_cons_self _ _
      · simp only [dictInsert, if_neg h2]
        exact List.mem_cons_self _ _
    · by_cases h2 : k3 = k2
      · simp only [dictInsert, if_pos h2]
        exact List.mem_cons_of_mem _ h3
      · simp only [dictInsert, if_neg h2]
        exact List.mem_cons_of_mem _ (ih h3)

/-! ## Unfolding lemmas for the crawler -/

theorem crawl_zero (cat : Catalog) (parse : Parser) (o n ds : String) (s : CrawlState) :
    crawlFuel cat parse 0 o n ds s = CrawlRes.outOfFuel := rfl

theorem crawl_seen (cat : Catalog) (parse : Parser) (f : Nat) (o n ds : String)
    (s : CrawlState) (h : (o ++ "." ++ n) ∈ s.seen) :
    crawlFuel cat parse (f + 1) o n ds s = CrawlRes.ok s := by
  simp [crawlFuel, h]

theorem crawl_notFound (cat : Catalog) (parse : Parser) (f : Nat) (o n ds : String)
    (s : CrawlState) (h : (o ++ "." ++ n) ∉ s.seen)
    (hty : lookupType cat o n = none) :
    crawlFuel cat parse (f + 1) o n ds s =
      CrawlRes.notFound (o ++ "." ++ n)
        { s with seen := s.seen ++ [o ++ "." ++ n],
                 queries := s.queries ++ [o ++ "." ++ n] } := by
  simp [crawlFuel, h, get_object_type_and_text, hty]

theorem crawl_table (cat : Catalog) (parse : Parser) (f : Nat) (o n ds ty : String)
    (s : CrawlState) (h : (o ++ "." ++ n) ∉ s.seen)
    (hty : lookupType cat o n = some ty) (hnv : ty ≠ "VIEW") :
    crawlFuel cat parse (f + 1) o n ds s =
      CrawlRes.ok
        { s with seen := s.seen ++ [o ++ "." ++ n],
                 queries := s.queries ++ [o ++ "." ++ n],
                 found_tables := s.found_tables ++ [o ++ "." ++ n] } := by
  simp [crawlFuel, h, get_object_type_and_text, hty, hnv]

theorem crawl_view_parsefail (cat : Catalog) (parse : Parser) (f : Nat)
    (o n ds : String) (s : CrawlState) (h : (o ++ "." ++ n) ∉ s.seen)
    (hty : lookupType cat o n = some "VIEW")
    (hex : extract_objects_from_sql parse (viewText cat o n) = none) :
    crawlFuel cat parse (f + 1) o n ds s = CrawlRes.pyError (viewState cat o n s) := by
  simp [crawlFuel, h, get_object_type_and_text, hty, hex, viewState]

theorem crawl_view (cat : Catalog) (parse : Parser) (f : Nat) (o n ds : String)
    (s : CrawlState) (ts : List String) (fns : List (String × String))
    (h : (o ++ "." ++ n) ∉ s.seen)
    (hty : lookupType cat o n = some "VIEW")
    (hex : extract_objects_from_sql parse (viewText cat o n) = some (ts, fns)) :
    crawlFuel cat parse (f + 1) o n ds s =
      (match crawlKids (fun o2 n2 s' => crawlFuel cat parse f o2 n2 ds s')
          (o ++ "." ++ n) ds ts (viewState cat o n s) with
       | CrawlRes.ok s4 =>
         CrawlRes.ok { s4 with found_functions := dictUpdate s4.found_functions fns }
       | r => r) := by
  simp [crawlFuel, h, get_object_type_and_text, hty, hex, viewState]

theorem kids_nil (step : String → String → CrawlState → CrawlRes)
    (fq_name ds : String) (s : CrawlState) :
    crawlKids step fq_name ds [] s = CrawlRes.ok s := rfl

theorem kids_self (step : String → String → CrawlState → CrawlRes)
    (fq_name ds t : String) (ts : List String) (s : CrawlState)
    (h : pyUpper (fully_qualify t ds) = pyUpper fq_name) :
    crawlKids step fq_name ds (t :: ts) s =
      crawlKids step fq_name ds ts (gpush s fq_name t ds) := by
  simp [crawlKids, h, gpush]

theorem kids_rec (step : String → String → CrawlState → CrawlRes)
    (fq_name ds t o2 n2 : String) (ts : List String) (s : CrawlState)
    (h : pyUpper (fully_qualify t ds) ≠ pyUpper fq_name)
    (hsplit : pySplitOn (fully_qualify t ds) '.' = [o2, n2]) :
    crawlKids step fq_name ds (t :: ts) s =
      (match step o2 n2 (gpush s fq_name t ds) with
       | CrawlRes.ok s2 => crawlKids step fq_name ds ts s2
       | r => r) := by
  simp [crawlKids, h, hsplit, gpush]

theorem kids_splitfail (step : String → String → CrawlState → CrawlRes)
    (fq_name ds t : String) (ts : List String) (s : CrawlState)
    (h : pyUpper (fully_qualify t ds) ≠ pyUpper fq_name)
    (hsplit : ∀ o2 n2, pySplitOn (fully_qualify t ds) '.' ≠ [o2, n2]) :
    crawlKids step fq_name ds (t :: ts) s = CrawlRes.pyError (gpush s fq_name t ds) := by
  simp only [crawlKids, if_neg h, gpush]

/-! ## Frame lemmas: the visited set only grows, and a crawl call never
touches graph entries of objects that were already visited when it
started. -/

theorem extends_refl (s : CrawlState) : Extends s s := ⟨[], by simp⟩

theorem extends_trans {a b c : CrawlState} (h1 : Extends a b) (h2 : Extends b c) :
    Extends a c := by
  obtain ⟨d1, e1⟩ := h1
  obtain ⟨d2, e2⟩ := h2
  exact ⟨d1 ++ d2, by rw [e2, e1, List.append_assoc]⟩

theorem extends_mem {s s' : CrawlState} {k : String} (h : Extends s s')
    (hk : k ∈ s.seen) : k ∈ s'.seen := by
  obtain ⟨d, e⟩ := h
  rw [e]
  exact List.mem_append_left _ hk

theorem kids_frame (step : String → String → CrawlState → CrawlRes) (fqX ds : String)
    (hstep : ∀ o2 n2 sIn sOut, resState (step o2 n2 sIn) = some sOut →
      Extends sIn sOut ∧ ∀ k ∈ sIn.seen,
        graphLookup sOut.dependency_graph k = graphLookup sIn.dependency_graph k) :
    ∀ (ts : List String) (s s' : CrawlState),
      resState (crawlKids step fqX ds ts s) = some s' →
      Extends s s' ∧ ∀ k, k ∈ s.seen → k ≠ fqX →
        graphLookup s'.dependency_graph k = graphLookup s.dependency_graph k := by
  intro ts
  induction ts with
  | nil =>
    intro s s' hres
    rw [kids_nil] at hres
    simp only [resState, Option.some.injEq] at hres
    subst hres
    exact ⟨extends_refl s, fun k _ _ => rfl⟩
  | cons t ts ih =>
    intro s s' hres
    by_cases hg : pyUpper (fully_qualify t ds) = pyUpper fqX
    · rw [kids_self _ _ _ _ _ _ hg] at hres
      obtain ⟨hext, hpres⟩ := ih (gpush s fqX t ds) s' hres
      refine ⟨hext, fun k hk hne => ?_⟩
      rw [hpres k hk hne, gpush, graphLookup_append_ne _ _ _ _ hne]
    · rcases hsp : pySplitOn (fully_qualify t ds) '.' with _ | ⟨a, _ | ⟨b, _ | ⟨c, rest⟩⟩⟩
      · rw [kids_splitfail _ _ _ _ _ _ hg
          (by intro o2 n2 hcon; rw [hsp] at hcon; simp at hcon)] at hres
        simp only [resState, Option.some.injEq] at hres
        subst hres
        exact ⟨extends_refl _, fun k hk hne => by
          rw [gpush, graphLookup_append_ne _ _ _ _ hne]⟩
      · rw [kids_splitfail _ _ _ _ _ _ hg
          (by intro o2 n2 hcon; rw [hsp] at hcon; simp at hcon)] at hres
        simp only [resState, Option.some.injEq] at hres
        subst hres
        exact ⟨extends_refl _, fun k hk hne => by
          rw [gpush, graphLookup_append_ne _ _ _ _ hne]⟩
      · rw [kids_rec _ _ _ _ a b _ _ hg hsp] at hres
        rcases hstep2 : step a b (gpush s fqX t ds) with s2 | ⟨f2, s2⟩ | s2 | _
        · rw [hstep2] at hres
          obtain ⟨hext1, hpres1⟩ := hstep a b _ s2 (by rw [hstep2]; rfl)
          obtain ⟨hext2, hpres2⟩ := ih s2 s' hres
          refine ⟨extends_trans hext1 hext2, fun k hk hne => ?_⟩
          have hk2 : k ∈ s2.seen := extends_mem hext1 hk
          rw [hpres2 k hk2 hne, hpres1 k hk, gpush, graphLookup_append_ne _ _ _ _ hne]
        · rw [hstep2] at hres
          simp only [resState, Option.some.injEq] at hres
          subst hres
          obtain ⟨hext1, hpres1⟩ := hstep a b _ s2 (by rw [hstep2]; rfl)
          refine ⟨hext1, fun k hk hne => ?_⟩
          rw [hpres1 k hk, gpush, graphLookup_append_ne _ _ _ _ hne]
        · rw [hstep2] at hres
          simp only [resState, Option.some.injEq] at hres
          subst hres
          obtain ⟨hext1, hpres1⟩ := hstep a b _ s2 (by rw [hstep2]; rfl)
          refine ⟨hext1, fun k hk hne => ?_⟩
          rw [hpres1 k hk, gpush, graphLookup_append_ne _ _ _ _ hne]
        · rw [hstep2] at hres
          simp [resState] at hres
      · rw [kids_splitfail _ _ _ _ _ _ hg
          (by intro o2 n2 hcon; rw [hsp] at hcon; simp at hcon)] at hres
        simp only [resState, Option.some.injEq] at hres
        subst hres
        exact ⟨extends_refl _, fun k hk hne => by
          rw [gpush, graphLookup_append_ne _ _ _ _ hne]⟩

theorem crawl_frame (cat : Catalog) (parse : Parser) :
    ∀ (fuel : Nat) (o n ds : String) (s s' : CrawlState),
      resState (crawlFuel cat parse fuel o n ds s) = some s' →
      Extends s s' ∧ ∀ k ∈ s.seen,
        graphLookup s'.dependency_graph k = graphLookup s.dependency_graph k := by
  intro fuel
  induction fuel with
  | zero => intro o n ds s s' hres; rw [crawl_zero] at hres; simp [resState] at hres
  | succ f ih =>
    intro o n ds s s' hres
    by_cases hseen : (o ++ "." ++ n) ∈ s.seen
    · rw [crawl_seen _ _ _ _ _ _ _ hseen] at hres
      simp only [resState, Option.some.injEq] at hres
      subst hres
      exact ⟨extends_refl s, fun k _ => rfl⟩
    · rcases hty : lookupType cat o n with _ | ty
      · rw [crawl_notFound _ _ _ _ _ _ _ hseen hty] at hres
        simp only [resState, Option.some.injEq] at hres
        subst hres
        exact ⟨⟨[o ++ "." ++ n], rfl⟩, fun k _ => rfl⟩
      · by_cases hv : ty = "VIEW"
        · subst hv
          rcases hex : extract_objects_from_sql parse (viewText cat o n) with _ | ⟨ts, fns⟩
          · rw [crawl_view_parsefail _ _ _ _ _ _ _ hseen hty hex] at hres
            simp only [resState, Option.some.injEq] at hres
            subst hres
            exact ⟨⟨[o ++ "." ++ n], rfl⟩, fun k _ => rfl⟩
          · rw [crawl_view _ _ _ _ _ _ _ _ _ hseen hty hex] at hres
            have hstep : ∀ o2 n2 sIn sOut,
                resState (crawlFuel cat parse f o2 n2 ds sIn) = some sOut →
                Extends sIn sOut ∧ ∀ k ∈ sIn.seen,
                  graphLookup sOut.dependency_graph k = graphLookup sIn.dependency_graph k :=
              fun o2 n2 sIn sOut h => ih o2 n2 ds sIn sOut h
            have hmem : ∀ k, k ∈ s.seen → k ∈ (viewState cat o n s).seen :=
              fun k hk => List.mem_append_left _ hk
            have hne : ∀ k, k ∈ s.seen → k ≠ o ++ "." ++ n :=
              fun k hk hcon => hseen (hcon ▸ hk)
            rcases hkids : crawlKids (fun o2 n2 s4 => crawlFuel cat parse f o2 n2 ds s4)
                (o ++ "." ++ n) ds ts (viewState cat o n s) with s4 | ⟨f4, s4⟩ | s4 | _
            · rw [hkids] at hres
              simp only [resState, Option.some.injEq] at hres
              obtain ⟨hext, hpres⟩ := kids_frame _ _ _ hstep ts (viewState cat o n s) s4
                (by rw [hkids]; rfl)
              subst hres
              refine ⟨extends_trans ⟨[o ++ "." ++ n], rfl⟩ hext, fun k hk => ?_⟩
              exact hpres k (hmem k hk) (hne k hk)
            · rw [hkids] at hres
              simp only [resState, Option.some.injEq] at hres
              obtain ⟨hext, hpres⟩ := kids_frame _ _ _ hstep ts (viewState cat o n s) s4
                (by rw [hkids]; rfl)
              subst hres
              refine ⟨extends_trans ⟨[o ++ "." ++ n], rfl⟩ hext, fun k hk => ?_⟩
              exact hpres k (hmem k hk) (hne k hk)
            · rw [hkids] at hres
              simp only [resState, Option.some.injEq] at hres
              obtain ⟨hext, hpres⟩ := kids_frame _ _ _ hstep ts (viewState cat o n s) s4
                (by rw [hkids]; rfl)
              subst hres
              refine ⟨extends_trans ⟨[o ++ "." ++ n], rfl⟩ hext, fun k hk => ?_⟩
              exact hpres k (hmem k hk) (hne k hk)
            · rw [hkids] at hres
              simp [resState] at hres
        · rw [crawl_table _ _ _ _ _ _ _ _ hseen hty hv] at hres
          simp only [resState, Option.some.injEq] at hres
          subst hres
          exact ⟨⟨[o ++ "." ++ n], rfl⟩, fun k _ => rfl⟩

/-! ## The crawl-state invariant: exact-case visitation discipline -/

theorem nodup_snoc {l : List String} {a : String} (h1 : l.Nodup) (h2 : a ∉ l) :
    (l ++ [a]).Nodup := by
  rw [List.nodup_append]
  exact ⟨h1, List.nodup_singleton a,
    fun x hx hy => h2 ((List.mem_singleton.mp hy) ▸ hx)⟩

theorem inv_init : Inv initState := by
  constructor <;> simp [initState]

theorem inv_gpush {s : CrawlState} (h : Inv s) (fqX t ds : String) :
    Inv (gpush s fqX t ds) :=
  ⟨h.seen_nodup, h.queries_eq, h.views_nodup, h.views_sub, h.tables_nodup,
    h.tables_sub, h.funs_udf⟩

theorem inv_notFoundState {s : CrawlState} (h : Inv s) {fq : String}
    (hfresh : fq ∉ s.seen) :
    Inv { s with seen := s.seen ++ [fq], queries := s.queries ++ [fq] } := by
  refine ⟨nodup_snoc h.seen_nodup hfresh, by rw [h.queries_eq], h.views_nodup,
    ?_, h.tables_nodup, ?_, h.funs_udf⟩
  · exact fun v hv => List.mem_append_left _ (h.views_sub v hv)
  · exact fun v hv => List.mem_append_left _ (h.tables_sub v hv)

theorem inv_tableState {s : CrawlState} (h : Inv s) {fq : String}
    (hfresh : fq ∉ s.seen) :
    Inv { s with seen := s.seen ++ [fq], queries := s.queries ++ [fq],
                 found_tables := s.found_tables ++ [fq] } := by
  refine ⟨nodup_snoc h.seen_nodup hfresh, by rw [h.queries_eq], h.views_nodup,
    ?_, nodup_snoc h.tables_nodup (fun hc => hfresh (h.tables_sub fq hc)), ?_,
    h.funs_udf⟩
  · exact fun v hv => List.mem_append_left _ (h.views_sub v hv)
  · intro v hv
    rcases List.mem_append.mp hv with h2 | h2
    · exact List.mem_append_left _ (h.tables_sub v h2)
    · exact List.mem_append_right _ h2

theorem inv_viewState {s : CrawlState} (h : Inv s) (cat : Catalog) {o n : String}
    (hfresh : (o ++ "." ++ n) ∉ s.seen) :
    Inv (viewState cat o n s) := by
  refine ⟨nodup_snoc h.seen_nodup hfresh, by
      show s.queries ++ _ = s.seen ++ _
      rw [h.queries_eq],
    nodup_snoc h.views_nodup (fun hc => hfresh (h.views_sub _ hc)), ?_,
    h.tables_nodup, ?_, h.funs_udf⟩
  · intro v hv
    rcases List.mem_append.mp hv with h2 | h2
    · exact List.mem_append_left _ (h.views_sub v h2)
    · exact List.mem_append_right _ h2
  · exact fun v hv => List.mem_append_left _ (h.tables_sub v hv)

/-- Every function entry produced by the walk over parse-tree nodes passed
classification as a `UDF`. -/
theorem walk_funs_udf :
    ∀ (nodes : List SqlNode) (ts0 : List String) (fs0 : List (String × String))
      (ts : List String) (fs : List (String × String)),
      (∀ p ∈ fs0, classify_function p.1 = some "UDF" ∧ p.2 = "UDF") →
      walkNodes nodes ts0 fs0 = some (ts, fs) →
      ∀ p ∈ fs, classify_function p.1 = some "UDF" ∧ p.2 = "UDF" := by
  intro nodes
  induction nodes with
  | nil =>
    intro ts0 fs0 ts fs h0 hw
    simp only [walkNodes, Option.some.injEq, Prod.mk.injEq] at hw
    obtain ⟨h1, h2⟩ := hw
    exact h2 ▸ h0
  | cons node rest ih =>
    intro ts0 fs0 ts fs h0 hw
    match node with
    | SqlNode.table txt =>
      simp only [walkNodes] at hw
      rcases hstr : strip_alias txt with _ | nm
      · rw [hstr] at hw; simp at hw
      · rw [hstr] at hw
        exact ih _ _ _ _ h0 hw
    | SqlNode.func fn =>
      simp only [walkNodes] at hw
      by_cases hcl : classify_function (pyUpper fn) = some "UDF"
      · rw [if_pos hcl] at hw
        refine ih _ _ _ _ ?_ hw
        exact dictInsert_pres _ fs0 _ _ h0 ⟨hcl, rfl⟩
      · rw [if_neg hcl] at hw
        exact ih _ _ _ _ h0 hw
    | SqlNode.other =>
      simp only [walkNodes] at hw
      exact ih _ _ _ _ h0 hw

/-- Every function entry surfaced by the Reference Extractor passed
classification as a `UDF`. -/
theorem extract_funs_udf (parse : Parser) (sql : String) (ts : List String)
    (fs : List (String × String))
    (hex : extract_objects_from_sql parse sql = some (ts, fs)) :
    ∀ p ∈ fs, classify_function p.1 = some "UDF" ∧ p.2 = "UDF" := by
  simp only [extract_objects_from_sql] at hex
  rcases hp : parse (clean_sql sql) with _ | nodes
  · simp only [hp, Option.some.injEq, Prod.mk.injEq] at hex
    obtain ⟨h1, h2⟩ := hex
    subst h2
    intro p hp2
    simp at hp2
  · simp only [hp] at hex
    rcases hw : walkNodes nodes [] [] with _ | ⟨ts0, fs0⟩
    · simp only [hw] at hex
      exact Option.noConfusion hex
    · simp only [hw, Option.some.injEq, Prod.mk.injEq] at hex
      obtain ⟨h1, h2⟩ := hex
      subst h2
      exact walk_funs_udf nodes [] [] ts0 fs0 (by simp) hw

theorem kids_inv (step : String → String → CrawlState → CrawlRes) (fqX ds : String)
    (hstep : ∀ o2 n2 sIn sOut, Inv sIn → resState (step o2 n2 sIn) = some sOut →
      Inv sOut) :
    ∀ (ts : List String) (s s' : CrawlState), Inv s →
      resState (crawlKids step fqX ds ts s) = some s' → Inv s' := by
  intro ts
  induction ts with
  | nil =>
    intro s s' hinv hres
    rw [kids_nil] at hres
    simp only [resState, Option.some.injEq] at hres
    exact hres ▸ hinv
  | cons t ts ih =>
    intro s s' hinv hres
    by_cases hg : pyUpper (fully_qualify t ds) = pyUpper fqX
    · rw [kids_self _ _ _ _ _ _ hg] at hres
      exact ih _ _ (inv_gpush hinv _ _ _) hres
    · rcases hsp : pySplitOn (fully_qualify t ds) '.' with _ | ⟨a, _ | ⟨b, _ | ⟨c, rest⟩⟩⟩
      · rw [kids_splitfail _ _ _ _ _ _ hg
          (by intro o2 n2 hcon; rw [hsp] at hcon; simp at hcon)] at hres
        simp only [resState, Option.some.injEq] at hres
        exact hres ▸ inv_gpush hinv _ _ _
      · rw [kids_splitfail _ _ _ _ _ _ hg
          (by intro o2 n2 hcon; rw [hsp] at hcon; simp at hcon)] at hres
        simp only [resState, Option.some.injEq] at hres
        exact hres ▸ inv_gpush hinv _ _ _
      · rw [kids_rec _ _ _ _ a b _ _ hg hsp] at hres
        rcases hstep2 : step a b (gpush s fqX t ds) with s2 | ⟨f2, s2⟩ | s2 | _
        · rw [hstep2] at hres
          exact ih s2 s' (hstep a b _ s2 (inv_gpush hinv _ _ _) (by rw [hstep2]; rfl)) hres
        · rw [hstep2] at hres
          simp only [resState, Option.some.injEq] at hres
          exact hres ▸ hstep a b _ s2 (inv_gpush hinv _ _ _) (by rw [hstep2]; rfl)
        · rw [hstep2] at hres
          simp only [resState, Option.some.injEq] at hres
          exact hres ▸ hstep a b _ s2 (inv_gpush hinv _ _ _) (by rw [hstep2]; rfl)
        · rw [hstep2] at hres
          simp [resState] at hres
      · rw [kids_splitfail _ _ _ _ _ _ hg
          (by intro o2 n2 hcon; rw [hsp] at hcon; simp at hcon)] at hres
        simp only [resState, Option.some.injEq] at hres
        exact hres ▸ inv_gpush hinv _ _ _

theorem crawl_inv (cat : Catalog) (parse : Parser) :
    ∀ (fuel : Nat) (o n ds : String) (s s' : CrawlState), Inv s →
      resState (crawlFuel cat parse fuel o n ds s) = some s' → Inv s' := by
  intro fuel
  induction fuel with
  | zero => intro o n ds s s' _ hres; rw [crawl_zero] at hres; simp [resState] at hres
  | succ f ih =>
    intro o n ds s s' hinv hres
    by_cases hseen : (o ++ "." ++ n) ∈ s.seen
    · rw [crawl_seen _ _ _ _ _ _ _ hseen] at hres
      simp only [resState, Option.some.injEq] at hres
      exact hres ▸ hinv
    · rcases hty : lookupType cat o n with _ | ty
      · rw [crawl_notFound _ _ _ _ _ _ _ hseen hty] at hres
        simp only [resState, Option.some.injEq] at hres
        exact hres ▸ inv_notFoundState hinv hseen
      · by_cases hv : ty = "VIEW"
        · subst hv
          rcases hex : extract_objects_from_sql parse (viewText cat o n) with _ | ⟨ts, fns⟩
          · rw [crawl_view_parsefail _ _ _ _ _ _ _ hseen hty hex] at hres
            simp only [resState, Option.some.injEq] at hres
            exact hres ▸ inv_viewState hinv cat hseen
          · rw [crawl_view _ _ _ _ _ _ _ _ _ hseen hty hex] at hres
            have hstep : ∀ o2 n2 sIn sOut, Inv sIn →
                resState (crawlFuel cat parse f o2 n2 ds sIn) = some sOut → Inv sOut :=
              fun o2 n2 sIn sOut h1 h2 => ih o2 n2 ds sIn sOut h1 h2
            have hinv3 : Inv (viewState cat o n s) := inv_viewState hinv cat hseen
            rcases hkids : crawlKids (fun o2 n2 s4 => crawlFuel cat parse f o2 n2 ds s4)
                (o ++ "." ++ n) ds ts (viewState cat o n s) with s4 | ⟨f4, s4⟩ | s4 | _
            · rw [hkids] at hres
              simp only [resState, Option.some.injEq] at hres
              have hinv4 : Inv s4 := kids_inv _ _ _ hstep ts _ s4 hinv3 (by rw [hkids]; rfl)
              refine hres ▸ ⟨hinv4.seen_nodup, hinv4.queries_eq, hinv4.views_nodup,
                hinv4.views_sub, hinv4.tables_nodup, hinv4.tables_sub, ?_⟩
              exact dictUpdate_pres _ _ _ hinv4.funs_udf
                (extract_funs_udf parse (viewText cat o n) ts fns hex)
            · rw [hkids] at hres
              simp only [resState, Option.some.injEq] at hres
              exact hres ▸ kids_inv _ _ _ hstep ts _ s4 hinv3 (by rw [hkids]; rfl)
            · rw [hkids] at hres
              simp only [resState, Option.some.injEq] at hres
              exact hres ▸ kids_inv _ _ _ hstep ts _ s4 hinv3 (by rw [hkids]; rfl)
            · rw [hkids] at hres
              simp [resState] at hres
        · rw [crawl_table _ _ _ _ _ _ _ _ hseen hty hv] at hres
          simp only [resState, Option.some.injEq] at hres
          exact hres ▸ inv_tableState hinv hseen

/-! ## Graph accumulation: what a view's adjacency list ends up being -/

theorem kids_acc (step : String → String → CrawlState → CrawlRes) (fqX ds : String)
    (hstep : ∀ o2 n2 sIn sOut, resState (step o2 n2 sIn) = some sOut →
      Extends sIn sOut ∧ ∀ k ∈ sIn.seen,
        graphLookup sOut.dependency_graph k = graphLookup sIn.dependency_graph k) :
    ∀ (ts : List String) (s s' : CrawlState), fqX ∈ s.seen →
      crawlKids step fqX ds ts s = CrawlRes.ok s' →
      graphLookup s'.dependency_graph fqX =
        graphLookup s.dependency_graph fqX ++ ts.map (fun t => fully_qualify t ds) := by
  intro ts
  induction ts with
  | nil =>
    intro s s' hmem hok
    rw [kids_nil] at hok
    cases hok
    simp
  | cons t ts ih =>
    intro s s' hmem hok
    by_cases hg : pyUpper (fully_qualify t ds) = pyUpper fqX
    · rw [kids_self _ _ _ _ _ _ hg] at hok
      have h1 := ih (gpush s fqX t ds) s' hmem hok
      rw [h1]
      show graphLookup (graphAppend s.dependency_graph fqX (fully_qualify t ds)) fqX ++ _ = _
      rw [graphLookup_append_self]
      simp
    · rcases hsp : pySplitOn (fully_qualify t ds) '.' with _ | ⟨a, _ | ⟨b, _ | ⟨c, rest⟩⟩⟩
      · rw [kids_splitfail _ _ _ _ _ _ hg
          (by intro o2 n2 hcon; rw [hsp] at hcon; simp at hcon)] at hok
        simp at hok
      · rw [kids_splitfail _ _ _ _ _ _ hg
          (by intro o2 n2 hcon; rw [hsp] at hcon; simp at hcon)] at hok
        simp at hok
      · rw [kids_rec _ _ _ _ a b _ _ hg hsp] at hok
        rcases hstep2 : step a b (gpush s fqX t ds) with s2 | ⟨f2, s2⟩ | s2 | _ <;>
          rw [hstep2] at hok
        · obtain ⟨hext1, hpres1⟩ := hstep a b _ s2 (by rw [hstep2]; rfl)
          have hmem2 : fqX ∈ s2.seen := extends_mem hext1 hmem
          have hloc : graphLookup s2.dependency_graph fqX =
              graphLookup s.dependency_graph fqX ++ [fully_qualify t ds] := by
            rw [hpres1 fqX hmem]
            show graphLookup (graphAppend s.dependency_graph fqX (fully_qualify t ds)) fqX = _
            rw [graphLookup_append_self]
          rw [ih s2 s' hmem2 hok, hloc]
          simp
        · simp at hok
        · simp at hok
        · simp at hok
      · rw [kids_splitfail _ _ _ _ _ _ hg
          (by intro o2 n2 hcon; rw [hsp] at hcon; simp at hcon)] at hok
        simp at hok

/-! ## Sortedness of the extractor's table list -/

theorem pyStrLeAux_total (a : List Char) :
    ∀ b : List Char, pyStrLeAux a b = true ∨ pyStrLeAux b a = true := by
  induction a with
  | nil => intro b; left; rfl
  | cons c cs ih =>
    intro b
    cases b with
    | nil => right; rfl
    | cons d ds2 =>
      by_cases h1 : c.toNat < d.toNat
      · left; simp [pyStrLeAux, h1]
      · by_cases h2 : d.toNat < c.toNat
        · right; simp [pyStrLeAux, h2]
        · rcases ih ds2 with h | h
          · left; simp [pyStrLeAux, h1, h2, h]
          · right; simp [pyStrLeAux, h1, h2, h]

theorem pyStrLeAux_trans (a : List Char) :
    ∀ b c : List Char, pyStrLeAux a b = true → pyStrLeAux b c = true →
      pyStrLeAux a c = true := by
  induction a with
  | nil => intro b c _ _; rfl
  | cons x xs ih =>
    intro b c hab hbc
    cases b with
    | nil => simp [pyStrLeAux] at hab
    | cons y ys =>
      cases c with
      | nil => simp [pyStrLeAux] at hbc
      | cons z zs =>
        by_cases h1 : x.toNat < y.toNat
        · by_cases h2 : y.toNat < z.toNat
          · have h3 : x.toNat < z.toNat := Nat.lt_trans h1 h2
            simp [pyStrLeAux, h3]
          · by_cases h3 : z.toNat < y.toNat
            · simp [pyStrLeAux, h2, h3] at hbc
            · have h4 : y.toNat = z.toNat := by omega
              have h5 : x.toNat < z.toNat := by omega
              simp [pyStrLeAux, h5]
        · by_cases h1b : y.toNat < x.toNat
          · simp [pyStrLeAux, h1, h1b] at hab
          · have hxy : x.toNat = y.toNat := by omega
            simp only [pyStrLeAux, if_neg h1, if_neg h1b] at hab
            by_cases h2 : y.toNat < z.toNat
            · have h3 : x.toNat < z.toNat := by omega
              simp [pyStrLeAux, h3]
            · by_cases h3 : z.toNat < y.toNat
              · simp [pyStrLeAux, h2, h3] at hbc
              · have h4 : ¬ x.toNat < z.toNat := by omega
                have h5 : ¬ z.toNat < x.toNat := by omega
                simp only [pyStrLeAux, if_neg h2, if_neg h3] at hbc
                simp only [pyStrLeAux, if_neg h4, if_neg h5]
                exact ih ys zs hab hbc

theorem pySortedSet_sorted (l : List String) :
    List.Pairwise (fun a b : String => pyStrLe a b = true) (pySortedSet l) := by
  haveI : IsTotal String (fun a b => pyStrLe a b = true) :=
    ⟨fun a b => pyStrLeAux_total a.data b.data⟩
  haveI : IsTrans String (fun a b => pyStrLe a b = true) :=
    ⟨fun a b c => pyStrLeAux_trans a.data b.data c.data⟩
  exact List.sorted_insertionSort (fun a b : String => pyStrLe a b = true) l.dedup

theorem pySortedSet_nodup (l : List String) : (pySortedSet l).Nodup :=
  ((List.perm_insertionSort (fun a b : String => pyStrLe a b = true) l.dedup).nodup_iff).mpr
    (List.nodup_dedup l)

/-- The table-name list returned by the Reference Extractor is sorted
ascending and duplicate-free (the source builds a set and sorts it). -/
theorem extract_tables_sorted (parse : Parser) (sql : String) (ts : List String)
    (fs : List (String × String))
    (hex : extract_objects_from_sql parse sql = some (ts, fs)) :
    List.Pairwise (fun a b : String => pyStrLe a b = true) ts ∧ ts.Nodup := by
  simp only [extract_objects_from_sql] at hex
  rcases hp : parse (clean_sql sql) with _ | nodes
  · simp only [hp, Option.some.injEq, Prod.mk.injEq] at hex
    obtain ⟨h1, h2⟩ := hex
    subst h1
    exact ⟨List.Pairwise.nil, List.nodup_nil⟩
  · simp only [hp] at hex
    rcases hw : walkNodes nodes [] [] with _ | ⟨ts0, fs0⟩
    · simp only [hw] at hex
      exact Option.noConfusion hex
    · simp only [hw, Option.some.injEq, Prod.mk.injEq] at hex
      obtain ⟨h1, h2⟩ := hex
      subst h1
      exact ⟨pySortedSet_sorted ts0, pySortedSet_nodup ts0⟩

/-! ## Characterization of `strip_alias` (Python `str.split()[0]`) -/

theorem pyWords_nil_iff (l : List Char) :
    pyWords l = [] ↔ l.all Char.isWhitespace = true := by
  induction l with
  | nil => simp [pyWords]
  | cons c cs ih =>
    by_cases hc : c.isWhitespace
    · simp only [pyWords, if_pos hc, List.all_cons, hc, Bool.true_and]
      exact ih
    · simp only [pyWords, if_neg hc, List.all_cons,
        Bool.not_eq_true] at *
      constructor
      · intro h
        exfalso
        rcases cs with _ | ⟨d, cs2⟩
        · simp at h
        · by_cases hd : d.isWhitespace
          · simp [hd] at h
          · rcases hw : pyWords (d :: cs2) with _ | ⟨w, rest⟩
            · rw [hw] at h; simp at h
            · rw [hw] at h
              simp [hd] at h
      · intro h
        rw [hc] at h
        simp at h

theorem pyWords_head (l : List Char) (h : l.all Char.isWhitespace = false) :
    (pyWords l).head? =
      some ((l.dropWhile Char.isWhitespace).takeWhile (fun c => !c.isWhitespace)) := by
  induction l with
  | nil => simp at h
  | cons c cs ih =>
    by_cases hc : c.isWhitespace
    · have h2 : cs.all Char.isWhitespace = false := by
        simp only [List.all_cons, hc, Bool.true_and] at h
        exact h
      simp only [pyWords, if_pos hc, List.dropWhile_cons, hc, if_pos rfl]
      exact ih h2
    · have hdrop : (c :: cs).dropWhile Char.isWhitespace = c :: cs := by
        simp [List.dropWhile_cons, hc]
      rw [hdrop]
      have htake : (c :: cs).takeWhile (fun d => !d.isWhitespace) =
          c :: cs.takeWhile (fun d => !d.isWhitespace) := by
        simp [List.takeWhile_cons, hc]
      rw [htake]
      rcases cs with _ | ⟨d, cs2⟩
      · simp [pyWords, hc]
      · by_cases hd : d.isWhitespace
        · simp only [pyWords, if_neg hc, hd, if_pos rfl]
          simp [List.takeWhile_cons, hd]
        · have h3 : (d :: cs2).all Char.isWhitespace = false := by
            simp [hd]
          have ih2 := ih h3
          have hdrop2 : (d :: cs2).dropWhile Char.isWhitespace = d :: cs2 := by
            simp [List.dropWhile_cons, hd]
          rw [hdrop2] at ih2
          rcases hw : pyWords (d :: cs2) with _ | ⟨w, rest⟩
          · rw [pyWords_nil_iff] at hw
            rw [hw] at h3
            simp at h3
          · rw [hw] at ih2
            simp only [List.head?_cons, Option.some.injEq] at ih2
            have houter : pyWords (c :: d :: cs2) = (c :: w) :: rest := by
              show (if c.isWhitespace = true then pyWords (d :: cs2)
                    else
                      if d.isWhitespace = true then [c] :: pyWords (d :: cs2)
                      else
                        match pyWords (d :: cs2) with
                        | [] => [[c]]
                        | w2 :: rest2 => (c :: w2) :: rest2) = (c :: w) :: rest
              rw [if_neg hc, if_neg hd, hw]
            rw [houter]
            simp only [List.head?_cons, Option.some.injEq, List.cons.injEq]
            exact ⟨trivial, ih2⟩

/-! ## Claims -/

/-- C10: for every object found in the catalog whose catalog object type is
anything other than `VIEW` — including kinds outside the spec's TABLE/VIEW
enumeration such as SEQUENCE, SYNONYM, FUNCTION or PACKAGE — the crawler
classifies it as TABLE, records it in `found_tables`, and terminates that
branch without expansion: the resulting state differs from the input state
only by the visit bookkeeping (seen + one adapter query) and the new
`found_tables` entry; no graph edge, view, definition text or function entry
is added and nothing further is crawled. -/
theorem C10_nonview_is_table_leaf (cat : Catalog) (parse : Parser) (fuel : Nat)
    (o n ds ty : String) (s : CrawlState)
    (hfresh : (o ++ "." ++ n) ∉ s.seen)
    (hty : lookupType cat o n = some ty)
    (hnv : ty ≠ "VIEW") :
    crawlFuel cat parse (fuel + 1) o n ds s =
      CrawlRes.ok
        { s with seen := s.seen ++ [o ++ "." ++ n],
                 queries := s.queries ++ [o ++ "." ++ n],
                 found_tables := s.found_tables ++ [o ++ "." ++ n] } :=
  crawl_table cat parse fuel o n ds ty s hfresh hty hnv

/-- C10 witness: the `SEQUENCE` object `S.SEQ1` is crawled as a table
leaf. -/
theorem C10_witness :
    ("S.SEQ1" ∉ initState.seen) ∧ lookupType catSeq "S" "SEQ1" = some "SEQUENCE" ∧
    "SEQUENCE" ≠ "VIEW" ∧
    crawlFuel catSeq parseNone 1 "S" "SEQ1" "S" initState =
      CrawlRes.ok { initState with seen := ["S.SEQ1"], queries := ["S.SEQ1"], found_tables := ["S.SEQ1"] } :=
  ⟨by decide, by decide, by decide,
    C10_nonview_is_table_leaf catSeq parseNone 0 "S" "SEQ1" "S" "SEQUENCE"
      initState (by decide) (by decide) (by decide)⟩

/-- C9: when any object of the crawl is not found in the catalog, the whole
invocation aborts with exit code 3 and writes no artifact at all, while a
connection failure exits with code 2 and success with 0; 3 is distinct from
both. -/
theorem C9_not_found_fatal (cat : Catalog) (parse : Parser)
    (fq_object o n bad : String) (cb rb : Nat) (s : CrawlState)
    (hsplit : pySplitOn fq_object '.' = [o, n])
    (hnf : crawlFuel cat parse cb (pyUpper o) (pyUpper n) (pyUpper o) initState =
      CrawlRes.notFound bad s) :
    mainModel cat parse true fq_object cb rb = MainOutcome.exited 3 [] ∧
    mainModel cat parse false fq_object cb rb = MainOutcome.exited 2 [] ∧
    (3 : Nat) ≠ 0 ∧ (3 : Nat) ≠ 2 := by
  refine ⟨?_, ?_, by decide, by decide⟩
  · simp [mainModel, hsplit, hnf]
  · simp [mainModel]

/-- C9 witness: crawling `S.A` against an empty catalog exits 3 with no
artifacts written. -/
theorem C9_witness :
    pySplitOn "S.A" '.' = ["S", "A"] ∧
    mainModel catEmpty parseNone true "S.A" 1 1 = MainOutcome.exited 3 [] := by
  refine ⟨by decide, ?_⟩
  exact (C9_not_found_fatal catEmpty parseNone "S.A" "S" "A" "S.A" 1 1
    { initState with seen := ["S.A"], queries := ["S.A"] } (by decide) (by decide)).1

/-- C7: on a definition string whose parse raises, the Reference Extractor
returns normally with an empty table list and an empty function map; at the
crawl level the view is processed without any exception escaping: the crawl
step returns `ok`, recording only the visit bookkeeping, the view and its
definition text, with no dependency edge and no function entry, and the
crawl continues. -/
theorem C7_parse_failure_contained :
    (∀ (parse : Parser) (sql : String), parse (clean_sql sql) = none →
      extract_objects_from_sql parse sql = some ([], [])) ∧
    (∀ (cat : Catalog) (parse : Parser) (fuel : Nat) (o n ds : String) (s : CrawlState),
      (o ++ "." ++ n) ∉ s.seen →
      lookupType cat o n = some "VIEW" →
      parse (clean_sql (viewText cat o n)) = none →
      crawlFuel cat parse (fuel + 1) o n ds s = CrawlRes.ok (viewState cat o n s)) := by
  have hfirst : ∀ (parse : Parser) (sql : String), parse (clean_sql sql) = none →
      extract_objects_from_sql parse sql = some ([], []) := by
    intro parse sql h
    simp [extract_objects_from_sql, h]
  refine ⟨hfirst, ?_⟩
  intro cat parse fuel o n ds s hfresh hty hparse
  rw [crawl_view cat parse fuel o n ds s [] [] hfresh hty (hfirst parse _ hparse)]
  rw [kids_nil]
  rfl

/-- C7 witness: the unparseable view `S.V1` yields an empty extraction and
an `ok` crawl. -/
theorem C7_witness :
    extract_objects_from_sql parseNone "NOT SQL %%%" = some ([], []) ∧
    crawlFuel catBad parseNone 1 "S" "V1" "S" initState =
      CrawlRes.ok (viewState catBad "S" "V1" initState) :=
  ⟨C7_parse_failure_contained.1 parseNone "NOT SQL %%%" rfl,
    C7_parse_failure_contained.2 catBad parseNone 0 "S" "V1" "S" initState
      (by decide) (by decide) rfl⟩

/-- C5 counterexample: `fully_qualify` performs no upper-casing.  Qualifying
`orders` against default schema `sales` returns `sales.orders`, not the
upper-cased `SALES.ORDERS` the claim requires for the owner/name pair. -/
theorem C5_counterexample :
    fully_qualify "orders" "sales" = "sales.orders" ∧
    fully_qualify "orders" "sales" ≠ "SALES.ORDERS" := by
  exact ⟨by decide, by decide⟩

/-- C5 amended: `fully_qualify` prefixes `default_schema` and a dot exactly
when the name contains no owner-separator, and otherwise returns the name
unchanged (no split is performed); in both cases the input name is kept
verbatim — in particular neither owner nor name is upper-cased by this
function. -/
theorem C5_amended (name ds : String) :
    fully_qualify name ds =
      (if name.data.contains '.' then "" else ds ++ ".") ++ name := by
  by_cases h : name.data.contains '.'
  · simp only [fully_qualify, if_pos h]
    apply String.ext
    simp
  · simp only [fully_qualify, if_neg h]

/-- C4 counterexample: `strip_alias` is `name.split()[0]`; on the empty
string the split list is empty and the indexing raises `IndexError`
(modelled by `none`) instead of returning the original token. -/
theorem C4_counterexample : strip_alias "" = none := by decide

/-- C4 amended: `strip_alias` returns the leading whitespace-delimited token
(the maximal non-whitespace run following the leading whitespace) whenever
the input contains at least one non-whitespace character; on empty or
all-whitespace input it raises `IndexError` (it does not return the original
token). -/
theorem C4_amended (s : String) :
    (strip_alias s = none ↔ s.data.all Char.isWhitespace = true) ∧
    (s.data.all Char.isWhitespace = false →
      strip_alias s =
        some (String.mk ((s.data.dropWhile Char.isWhitespace).takeWhile
          (fun c => !c.isWhitespace)))) := by
  constructor
  · constructor
    · intro h
      cases hall : s.data.all Char.isWhitespace
      · exfalso
        have h3 := pyWords_head s.data hall
        unfold strip_alias pySplit at h
        rcases hpw : pyWords s.data with _ | ⟨w, rest⟩
        · rw [pyWords_nil_iff] at hpw
          rw [hpw] at hall
          cases hall
        · rw [hpw] at h
          simp at h
      · rfl
    · intro h
      have h2 : pyWords s.data = [] := (pyWords_nil_iff s.data).mpr h
      unfold strip_alias pySplit
      rw [h2]
      rfl
  · intro h
    have h3 := pyWords_head s.data h
    unfold strip_alias pySplit
    rcases hpw : pyWords s.data with _ | ⟨w, rest⟩
    · rw [pyWords_nil_iff] at hpw
      rw [hpw] at h
      cases h
    · rw [hpw] at h3
      simp only [List.head?_cons, Option.some.injEq] at h3
      simp [h3]

/-- C4 witness: `strip_alias` on `TAB1 T` returns the leading token
`TAB1`. -/
theorem C4_witness :
    ("TAB1 T".data.all Char.isWhitespace = false) ∧
    strip_alias "TAB1 T" = some "TAB1" := by
  refine ⟨by decide, ?_⟩
  exact ((C4_amended "TAB1 T").2 (by decide)).trans (by decide)

/-- C3 counterexample: over `catCase` the crawl of `S.A` terminates
normally, but the object whose normalized upper-cased pair is (S, A) is
reached under two spellings (`S.A` via the root, `S.a` via `S.B`'s
definition) and the Catalog Adapter is queried for it twice, refuting
"queried exactly once" for the normalized identity. -/
theorem C3_counterexample :
    isOk (crawlFuel catCase parseCase 6 "S" "A" "S" initState) = true ∧
    ((resQueries (crawlFuel catCase parseCase 6 "S" "A" "S" initState)).filter
      (fun q => pyUpper q = "S.A")).length = 2 := by
  exact ⟨by decide, by decide⟩

/-- C3 amended: visitation is idempotent for the exact-case `owner.name`
string, not for the normalized upper-cased pair: in every crawl from a fresh
state the Catalog-Adapter query trace is exactly the visited list (each
object is added to the VisitedSet exactly once, immediately before its
single catalog query, before its expansion) and the visited list is
duplicate-free; an object reachable under several casings is queried once
per distinct spelling. -/
theorem C3_exact_case_idempotent (cat : Catalog) (parse : Parser) (fuel : Nat)
    (o n ds : String) :
    resQueries (crawlFuel cat parse fuel o n ds initState) =
      resSeen (crawlFuel cat parse fuel o n ds initState) ∧
    (resSeen (crawlFuel cat parse fuel o n ds initState)).Nodup := by
  rcases hres : crawlFuel cat parse fuel o n ds initState with s | ⟨f, s⟩ | s | _
  · have hinv : Inv s := crawl_inv cat parse fuel o n ds initState s inv_init
      (by rw [hres]; rfl)
    exact ⟨hinv.queries_eq, hinv.seen_nodup⟩
  · have hinv : Inv s := crawl_inv cat parse fuel o n ds initState s inv_init
      (by rw [hres]; rfl)
    exact ⟨hinv.queries_eq, hinv.seen_nodup⟩
  · have hinv : Inv s := crawl_inv cat parse fuel o n ds initState s inv_init
      (by rw [hres]; rfl)
    exact ⟨hinv.queries_eq, hinv.seen_nodup⟩
  · exact ⟨rfl, List.nodup_nil⟩

/-- C1 counterexample: over `catSelf` the crawl of the self-referencing view
`S.A` terminates successfully, yet the accumulated DependencyGraph contains
the self-loop edge `S.A → S.A` (the edge is appended before the
self-reference guard), refuting "no cycle, including no self-loop edge". -/
theorem C1_counterexample :
    isOk (crawlFuel catSelf parseSelf 1 "S" "A" "S" initState) = true ∧
    "S.A" ∈ graphLookup (resGraph (crawlFuel catSelf parseSelf 1 "S" "A" "S" initState)) "S.A" := by
  exact ⟨by decide, by decide⟩

/-- C1 amended: a successfully terminating crawl yields a finite graph, but
that graph may contain cycles — a self-referencing view records a self-loop
edge — and on such a result the Tree Renderer's depth-first walk does not
terminate: for the crawl of `catSelf` it exhausts every recursion budget
(at every prefix and sibling flag). -/
theorem C1_renderer_diverges_on_self_loop :
    crawlFuel catSelf parseSelf 1 "S" "A" "S" initState = CrawlRes.ok stSelf ∧
    "S.A" ∈ graphLookup stSelf.dependency_graph "S.A" ∧
    (∀ (fuel : Nat) (pre : String) (last : Bool),
      renderWalk stSelf.dependency_graph fuel "S.A" pre last = none) := by
  refine ⟨by decide, by decide, ?_⟩
  intro fuel
  induction fuel with
  | zero => intro pre last; rfl
  | succ f ih =>
    intro pre last
    have hchild : graphLookup stSelf.dependency_graph "S.A" = ["S.A"] := by decide
    simp only [renderWalk, hchild, renderKidsAux, ih]

/-- C6 counterexample: in `catOrder` the definition of `S.X` references
`T_B` before `T_A` (the parse-tree walk meets them in that order), but the
recorded adjacency list is the sorted `[S.T_A, S.T_B]`, not the
appearance-order `[S.T_B, S.T_A]`. -/
theorem C6_counterexample :
    parseOrder "SELECT * FROM T_B, T_A" =
      some [SqlNode.table "T_B", SqlNode.table "T_A"] ∧
    isOk (crawlFuel catOrder parseOrder 3 "S" "X" "S" initState) = true ∧
    graphLookup (resGraph (crawlFuel catOrder parseOrder 3 "S" "X" "S" initState)) "S.X" =
      ["S.T_A", "S.T_B"] ∧
    graphLookup (resGraph (crawlFuel catOrder parseOrder 3 "S" "X" "S" initState)) "S.X" ≠
      ["T_B", "T_A"].map (fun t => fully_qualify t "S") := by
  exact ⟨by decide, by decide, by decide, by decide⟩

/-- C6 amended: for a view X with a parseable definition crawled at a fresh
state, DependencyGraph[X] in the final state is the extractor's table list
qualified against the default schema in order — and that list is the
ascending sorted, duplicate-free set of alias-stripped table names of X's
definition, not their order of appearance. -/
theorem C6_sorted_adjacency (cat : Catalog) (parse : Parser) (fuel : Nat)
    (o n ds : String) (s s2 : CrawlState) (ts : List String)
    (fns : List (String × String))
    (hfresh : (o ++ "." ++ n) ∉ s.seen)
    (hty : lookupType cat o n = some "VIEW")
    (hex : extract_objects_from_sql parse (viewText cat o n) = some (ts, fns))
    (hg0 : graphLookup s.dependency_graph (o ++ "." ++ n) = [])
    (hok : crawlFuel cat parse (fuel + 1) o n ds s = CrawlRes.ok s2) :
    graphLookup s2.dependency_graph (o ++ "." ++ n) =
      ts.map (fun t => fully_qualify t ds) ∧
    List.Pairwise (fun a b : String => pyStrLe a b = true) ts ∧ ts.Nodup := by
  have hsort := extract_tables_sorted parse _ ts fns hex
  refine ⟨?_, hsort.1, hsort.2⟩
  rw [crawl_view cat parse fuel o n ds s ts fns hfresh hty hex] at hok
  have hstep : ∀ o2 n2 sIn sOut,
      resState (crawlFuel cat parse fuel o2 n2 ds sIn) = some sOut →
      Extends sIn sOut ∧ ∀ k ∈ sIn.seen,
        graphLookup sOut.dependency_graph k = graphLookup sIn.dependency_graph k :=
    fun o2 n2 sIn sOut h => crawl_frame cat parse fuel o2 n2 ds sIn sOut h
  have hmem : (o ++ "." ++ n) ∈ (viewState cat o n s).seen :=
    List.mem_append_right _ (List.mem_singleton.mpr rfl)
  rcases hkids : crawlKids (fun o2 n2 s4 => crawlFuel cat parse fuel o2 n2 ds s4)
      (o ++ "." ++ n) ds ts (viewState cat o n s) with s4 | ⟨f4, s4⟩ | s4 | _ <;>
    rw [hkids] at hok
  · have hacc := kids_acc _ _ _ hstep ts (viewState cat o n s) s4 hmem hkids
    cases hok
    show graphLookup s4.dependency_graph (o ++ "." ++ n) = _
    rw [hacc]
    show graphLookup s.dependency_graph (o ++ "." ++ n) ++ _ = _
    rw [hg0]
    simp
  · cases hok
  · cases hok
  · cases hok

/-- C6 witness: crawling `catOrder` at a fresh state yields the sorted
adjacency list for `S.X`. -/
theorem C6_witness :
    (crawlFuel catOrder parseOrder 3 "S" "X" "S" initState = CrawlRes.ok stOrder) ∧
    graphLookup stOrder.dependency_graph ("S" ++ "." ++ "X") =
      ["T_A", "T_B"].map (fun t => fully_qualify t "S") := by
  refine ⟨by decide, ?_⟩
  exact (C6_sorted_adjacency catOrder parseOrder 2 "S" "X" "S" initState stOrder
    ["T_A", "T_B"] [] (by decide) (by decide) (by decide) (by decide) (by decide)).1

/-- A name classified `UDF` is not a member of the built-in registry (and is
a valid identifier, not a keyword, not a pseudo-function marker). -/
theorem classify_udf_not_builtin {m : String}
    (h : classify_function m = some "UDF") : pyUpper m ∉ ORACLE_BUILTINS := by
  intro hmem
  simp only [classify_function] at h
  by_cases h1 : ¬ (isPyIdentifier (pyUpper m) = true) ∨ pyUpper m ∈ SQL_KEYWORDS ∨
      pyUpper m ∈ ["ANONYMOUS", "BLOCK"]
  · rw [if_pos h1] at h
    exact Option.noConfusion h
  · rw [if_neg h1, if_pos hmem] at h
    simp at h

/-- Entries with value `UDF` survive the rest of the node walk. -/
theorem walk_mono :
    ∀ (nodes : List SqlNode) (ts0 : List String) (fs0 : List (String × String))
      (ts : List String) (fs : List (String × String)) (k : String),
      walkNodes nodes ts0 fs0 = some (ts, fs) → (k, "UDF") ∈ fs0 → (k, "UDF") ∈ fs := by
  intro nodes
  induction nodes with
  | nil =>
    intro ts0 fs0 ts fs k hw hk
    simp only [walkNodes, Option.some.injEq, Prod.mk.injEq] at hw
    exact hw.2 ▸ hk
  | cons node rest ih =>
    intro ts0 fs0 ts fs k hw hk
    match node with
    | SqlNode.table txt =>
      simp only [walkNodes] at hw
      rcases hstr : strip_alias txt with _ | nm
      · rw [hstr] at hw; simp at hw
      · rw [hstr] at hw
        exact ih _ _ _ _ k hw hk
    | SqlNode.func fn =>
      simp only [walkNodes] at hw
      by_cases hcl : classify_function (pyUpper fn) = some "UDF"
      · rw [if_pos hcl] at hw
        exact ih _ _ _ _ k hw (dictInsert_mem_mono fs0 k (pyUpper fn) hk)
      · rw [if_neg hcl] at hw
        exact ih _ _ _ _ k hw hk
    | SqlNode.other =>
      simp only [walkNodes] at hw
      exact ih _ _ _ _ k hw hk

/-- A function-call node that classifies as `UDF` ends up in the walk's
function map under its upper-cased name. -/
theorem walk_mem_udf :
    ∀ (nodes : List SqlNode) (ts0 : List String) (fs0 : List (String × String))
      (ts : List String) (fs : List (String × String)) (fname : String),
      walkNodes nodes ts0 fs0 = some (ts, fs) →
      SqlNode.func fname ∈ nodes →
      classify_function (pyUpper fname) = some "UDF" →
      (pyUpper fname, "UDF") ∈ fs := by
  intro nodes
  induction nodes with
  | nil =>
    intro ts0 fs0 ts fs fname _ hmem
    simp at hmem
  | cons node rest ih =>
    intro ts0 fs0 ts fs fname hw hmem hcl
    rcases List.mem_cons.mp hmem with h | h
    · subst h
      simp only [walkNodes, if_pos hcl] at hw
      exact walk_mono rest _ _ _ _ _ hw (dictInsert_mem_self fs0 (pyUpper fname))
    · match node with
      | SqlNode.table txt =>
        simp only [walkNodes] at hw
        rcases hstr : strip_alias txt with _ | nm
        · rw [hstr] at hw; simp at hw
        · rw [hstr] at hw
          exact ih _ _ _ _ fname hw h hcl
      | SqlNode.func fn =>
        simp only [walkNodes] at hw
        by_cases hcl2 : classify_function (pyUpper fn) = some "UDF"
        · rw [if_pos hcl2] at hw
          exact ih _ _ _ _ fname hw h hcl
        · rw [if_neg hcl2] at hw
          exact ih _ _ _ _ fname hw h hcl
      | SqlNode.other =>
        simp only [walkNodes] at hw
        exact ih _ _ _ _ fname hw h hcl

/-- C8: (a) in every crawl, every entry of `found_functions` has an
upper-cased name absent from the built-in registry and carries
classification `UDF` — so a call to a registry member (e.g. `UPPER`) never
appears; (b) at the Reference Extractor, every function-call node of the
parsed definition whose name classifies as `UDF` (a valid identifier that is
not a SQL keyword, not a pseudo-function marker, and absent from the
registry — the conditions of `classify_function`) appears in the output map
under its upper-cased name with classification `UDF`. -/
theorem C8_builtin_udf_classification :
    (∀ (cat : Catalog) (parse : Parser) (fuel : Nat) (o n ds : String),
      ∀ p ∈ resFunctions (crawlFuel cat parse fuel o n ds initState),
        pyUpper p.1 ∉ ORACLE_BUILTINS ∧ p.2 = "UDF") ∧
    (∀ (parse : Parser) (sql : String) (nodes : List SqlNode) (ts : List String)
      (fs : List (String × String)) (fname : String),
      parse (clean_sql sql) = some nodes →
      extract_objects_from_sql parse sql = some (ts, fs) →
      SqlNode.func fname ∈ nodes →
      classify_function (pyUpper fname) = some "UDF" →
      (pyUpper fname, "UDF") ∈ fs) := by
  constructor
  · intro cat parse fuel o n ds p hp
    rcases hres : crawlFuel cat parse fuel o n ds initState with sf | ⟨f, sf⟩ | sf | _ <;>
      rw [hres] at hp
    · have hinv : Inv sf := crawl_inv cat parse fuel o n ds initState sf inv_init
        (by rw [hres]; rfl)
      have h2 := hinv.funs_udf p hp
      exact ⟨classify_udf_not_builtin h2.1, h2.2⟩
    · have hinv : Inv sf := crawl_inv cat parse fuel o n ds initState sf inv_init
        (by rw [hres]; rfl)
      have h2 := hinv.funs_udf p hp
      exact ⟨classify_udf_not_builtin h2.1, h2.2⟩
    · have hinv : Inv sf := crawl_inv cat parse fuel o n ds initState sf inv_init
        (by rw [hres]; rfl)
      have h2 := hinv.funs_udf p hp
      exact ⟨classify_udf_not_builtin h2.1, h2.2⟩
    · simp [resFunctions] at hp
  · intro parse sql nodes ts fs fname hp hex hmem hcl
    simp only [extract_objects_from_sql, hp] at hex
    rcases hw : walkNodes nodes [] [] with _ | ⟨ts0, fs0⟩
    · simp only [hw] at hex
      exact Option.noConfusion hex
    · simp only [hw, Option.some.injEq, Prod.mk.injEq] at hex
      exact hex.2 ▸ walk_mem_udf nodes [] [] ts0 fs0 fname hw hmem hcl

/-- C8 witness: in the crawl of `catFun`, `UPPER` (a registry member) never
appears in `found_functions` and `CALC_TAX` appears in the extractor's
output map as a `UDF`; concretely the crawl records exactly
`[("CALC_TAX", "UDF")]`. -/
theorem C8_witness :
    (∀ p ∈ resFunctions (crawlFuel catFun parseFun 2 "S" "V2" "S" initState),
      pyUpper p.1 ∉ ORACLE_BUILTINS ∧ p.2 = "UDF") ∧
    (("UPPER", "UDF") ∉ resFunctions (crawlFuel catFun parseFun 2 "S" "V2" "S" initState)) ∧
    (resFunctions (crawlFuel catFun parseFun 2 "S" "V2" "S" initState) =
      [("CALC_TAX", "UDF")]) ∧
    ((pyUpper "CALC_TAX", "UDF") ∈ [(("CALC_TAX" : String), ("UDF" : String))]) := by
  refine ⟨C8_builtin_udf_classification.1 catFun parseFun 2 "S" "V2" "S",
    by decide, by decide, ?_⟩
  exact C8_builtin_udf_classification.2 parseFun "SELECT UPPER(X), CALC_TAX(X) FROM T1"
    [SqlNode.func "UPPER", SqlNode.func "CALC_TAX", SqlNode.table "T1"]
    ["T1"] [("CALC_TAX", "UDF")] "CALC_TAX" (by decide) (by decide) (by decide) (by decide)

/-- C2: for a pair of distinct views A and B whose definitions reference
each other (each definition extracting exactly the other's qualified name,
in matching case), the crawl terminates — it completes within recursion
depth 4 — and the final `found_views` list is exactly `[A, B]`: both views
are recorded, each exactly once.  (References whose spelling differs in case
from the canonical name fall under the exact-case identity of C3.) -/
theorem C2_mutual_cycle_terminates (cat : Catalog) (parse : Parser)
    (oA nA oB nB tA tB : String) (fnsA fnsB : List (String × String))
    (hA : lookupType cat oA nA = some "VIEW")
    (hB : lookupType cat oB nB = some "VIEW")
    (hexA : extract_objects_from_sql parse (viewText cat oA nA) = some ([tB], fnsA))
    (hexB : extract_objects_from_sql parse (viewText cat oB nB) = some ([tA], fnsB))
    (hqB : fully_qualify tB oA = oB ++ "." ++ nB)
    (hqA : fully_qualify tA oA = oA ++ "." ++ nA)
    (hsB : pySplitOn (oB ++ "." ++ nB) '.' = [oB, nB])
    (hsA : pySplitOn (oA ++ "." ++ nA) '.' = [oA, nA])
    (hne : pyUpper (oA ++ "." ++ nA) ≠ pyUpper (oB ++ "." ++ nB)) :
    ∃ s : CrawlState, crawlFuel cat parse 4 oA nA oA initState = CrawlRes.ok s ∧
      s.found_views = [oA ++ "." ++ nA, oB ++ "." ++ nB] ∧
      (oA ++ "." ++ nA) ≠ (oB ++ "." ++ nB) := by
  have hfqne : (oA ++ "." ++ nA) ≠ oB ++ "." ++ nB := fun h => hne (by rw [h])
  have hfreshA : (oA ++ "." ++ nA) ∉ initState.seen := by simp [initState]
  have hfreshB : (oB ++ "." ++ nB) ∉
      (gpush (viewState cat oA nA initState) (oA ++ "." ++ nA) tB oA).seen := by
    simpa [gpush, viewState, initState] using
      fun h : (oB ++ "." ++ nB) = (oA ++ "." ++ nA) => hfqne h.symm
  have hmemA : (oA ++ "." ++ nA) ∈
      (gpush (viewState cat oB nB
        (gpush (viewState cat oA nA initState) (oA ++ "." ++ nA) tB oA))
        (oB ++ "." ++ nB) tA oA).seen := by
    simp [gpush, viewState, initState]
  have hgB : pyUpper (fully_qualify tB oA) ≠ pyUpper (oA ++ "." ++ nA) := by
    rw [hqB]; exact fun h => hne h.symm
  have hsB' : pySplitOn (fully_qualify tB oA) '.' = [oB, nB] := by rw [hqB]; exact hsB
  have hgA : pyUpper (fully_qualify tA oA) ≠ pyUpper (oB ++ "." ++ nB) := by
    rw [hqA]; exact hne
  have hsA' : pySplitOn (fully_qualify tA oA) '.' = [oA, nA] := by rw [hqA]; exact hsA
  have hrunA2 : crawlFuel cat parse 2 oA nA oA
      (gpush (viewState cat oB nB
        (gpush (viewState cat oA nA initState) (oA ++ "." ++ nA) tB oA))
        (oB ++ "." ++ nB) tA oA) =
      CrawlRes.ok (gpush (viewState cat oB nB
        (gpush (viewState cat oA nA initState) (oA ++ "." ++ nA) tB oA))
        (oB ++ "." ++ nB) tA oA) :=
    crawl_seen cat parse 1 oA nA oA _ hmemA
  have hkidsB : crawlKids (fun o2 n2 s2 => crawlFuel cat parse 2 o2 n2 oA s2)
      (oB ++ "." ++ nB) oA [tA]
      (viewState cat oB nB
        (gpush (viewState cat oA nA initState) (oA ++ "." ++ nA) tB oA)) =
      CrawlRes.ok (gpush (viewState cat oB nB
        (gpush (viewState cat oA nA initState) (oA ++ "." ++ nA) tB oA))
        (oB ++ "." ++ nB) tA oA) := by
    rw [kids_rec _ _ _ _ oA nA [] _ hgA hsA']
    rw [hrunA2]
    rfl
  have hrunB : crawlFuel cat parse 3 oB nB oA
      (gpush (viewState cat oA nA initState) (oA ++ "." ++ nA) tB oA) =
      (match crawlKids (fun o2 n2 s2 => crawlFuel cat parse 2 o2 n2 oA s2)
          (oB ++ "." ++ nB) oA [tA]
          (viewState cat oB nB
            (gpush (viewState cat oA nA initState) (oA ++ "." ++ nA) tB oA)) with
       | CrawlRes.ok s4 =>
         CrawlRes.ok { s4 with found_functions := dictUpdate s4.found_functions fnsB }
       | r => r) :=
    crawl_view cat parse 2 oB nB oA _ [tA] fnsB hfreshB hB hexB
  rw [hkidsB] at hrunB
  have hkidsA : crawlKids (fun o2 n2 s2 => crawlFuel cat parse 3 o2 n2 oA s2)
      (oA ++ "." ++ nA) oA [tB] (viewState cat oA nA initState) =
      CrawlRes.ok { (gpush (viewState cat oB nB
          (gpush (viewState cat oA nA initState) (oA ++ "." ++ nA) tB oA))
          (oB ++ "." ++ nB) tA oA) with
        found_functions := dictUpdate (gpush (viewState cat oB nB
          (gpush (viewState cat oA nA initState) (oA ++ "." ++ nA) tB oA))
          (oB ++ "." ++ nB) tA oA).found_functions fnsB } := by
    rw [kids_rec _ _ _ _ oB nB [] _ hgB hsB']
    rw [hrunB]
    rfl
  have htop : crawlFuel cat parse 4 oA nA oA initState =
      (match crawlKids (fun o2 n2 s2 => crawlFuel cat parse 3 o2 n2 oA s2)
          (oA ++ "." ++ nA) oA [tB] (viewState cat oA nA initState) with
       | CrawlRes.ok s4 =>
         CrawlRes.ok { s4 with found_functions := dictUpdate s4.found_functions fnsA }
       | r => r) :=
    crawl_view cat parse 3 oA nA oA initState [tB] fnsA hfreshA hA hexA
  rw [hkidsA] at htop
  refine ⟨_, htop, ?_, hfqne⟩
  simp [viewState, gpush, initState]

/-- C2 witness: the mutually recursive views `SALES.V_A` and `SALES.V_B`
crawl to completion with both views found exactly once. -/
theorem C2_witness :
    lookupType catMutual "SALES" "V_A" = some "VIEW" ∧
    (∃ s : CrawlState,
      crawlFuel catMutual parseMutual 4 "SALES" "V_A" "SALES" initState = CrawlRes.ok s ∧
      s.found_views = ["SALES" ++ "." ++ "V_A", "SALES" ++ "." ++ "V_B"] ∧
      ("SALES" ++ "." ++ "V_A") ≠ ("SALES" ++ "." ++ "V_B")) := by
  refine ⟨by decide, ?_⟩
  exact C2_mutual_cycle_terminates catMutual parseMutual "SALES" "V_A" "SALES" "V_B"
    "SALES.V_A" "SALES.V_B" [] [] (by decide) (by decide) (by decide) (by decide)
    (by decide) (by decide) (by decide) (by decide) (by decide)

end Oracrawl
